import Mathlib

set_option maxRecDepth 4000

/-!
Verification development for the agentsystems-verify repository.

The TypeScript sources are shallowly embedded as Lean definitions:

* src/hash.ts          : hashContentM (JSON parse, RFC 8785 canonicalization, SHA-256)
* src/verify.ts        : validateTicket, processZipAndHash, verifyModel
* src/arweave.ts       : generateDateRange, queryArweaveTransactionsM,
                         getCurrentBlockHeightM, decodeNode
* src/types.ts         : ArweaveTicket, ArweaveTxDetails, VerificationResults

Network transport (fetch) is abstracted as explicitly passed response
functions, and asynchronous JS code is modelled as pure state passing with
Except for thrown errors.  JS machine integers stay inside the safe range
for every value the code manipulates, so they are embedded as Int / Nat.
-/

/-- JSON value, modelled from the spec: the value space JSON.parse produces
for the documents this tool consumes.  Numeric literals are restricted to
integers (the specification's fixed number formatting on the safe-integer
range); JS floating point is outside the embedding. -/
inductive Json where
  | null : Json
  | bool (b : Bool) : Json
  | num (n : Int) : Json
  | str (s : String) : Json
  | arr (elems : List Json) : Json
  | obj (entries : List (String × Json)) : Json

/-- JSON whitespace characters accepted between tokens. -/
def isJsonWs (c : Char) : Bool :=
  c = ' ' || c = '\t' || c = '\n' || c = '\r'

def skipWs (cs : List Char) : List Char :=
  cs.dropWhile isJsonWs

/-- Drop an expected literal from the front of the input. -/
def dropLit : List Char → List Char → Option (List Char)
  | [], cs => some cs
  | _ :: _, [] => none
  | l :: ls, c :: cs => if c = l then dropLit ls cs else none

def isHexDig (c : Char) : Bool :=
  c.isDigit || ('a' ≤ c && c ≤ 'f') || ('A' ≤ c && c ≤ 'F')

/-- Value of a hexadecimal digit character. -/
def hexVal (c : Char) : Nat := (c.toNat % 32 + 9) % 25

/-- Decode one single-character escape sequence. -/
def simpleEscape : Char → Option Char
  | '"' => some '"'
  | '\\' => some '\\'
  | '/' => some '/'
  | 'b' => some '\x08'
  | 'f' => some '\x0c'
  | 'n' => some '\n'
  | 'r' => some '\r'
  | 't' => some '\t'
  | _ => none

/-- Decode the code point of a unicode escape, if in range and not a
surrogate. -/
def unicodeEscape (h1 h2 h3 h4 : Char) : Option Char :=
  if isHexDig h1 && isHexDig h2 && isHexDig h3 && isHexDig h4 then
    let n := hexVal h1 * 4096 + hexVal h2 * 256 + hexVal h3 * 16 + hexVal h4
    if 0xd800 ≤ n ∧ n < 0xe000 then none
    else if n < 1114112 then some (Char.ofNat n)
    else none
  else none

/-- Modelled from the spec: JSON string body parsing as JSON.parse does it
(escape sequences decoded, literal control characters rejected). -/
def parseStrBody (acc : List Char) : List Char → Option (String × List Char)
  | [] => none
  | '"' :: rest => some (String.mk acc.reverse, rest)
  | '\\' :: 'u' :: h1 :: h2 :: h3 :: h4 :: rest =>
    match unicodeEscape h1 h2 h3 h4 with
    | some c => parseStrBody (c :: acc) rest
    | none => none
  | '\\' :: e :: rest =>
    match simpleEscape e with
    | some c => parseStrBody (c :: acc) rest
    | none => none
  | '\\' :: [] => none
  | c :: rest => if c.toNat < 32 then none else parseStrBody (c :: acc) rest

def digitVal (c : Char) : Nat := c.toNat - 48

/-- Consume a run of decimal digits. -/
def takeDigits : List Char → (List Char × List Char)
  | [] => ([], [])
  | c :: cs =>
    if c.isDigit then
      let (ds, rest) := takeDigits cs
      (c :: ds, rest)
    else ([], c :: cs)

def digitsToNat (ds : List Char) : Nat :=
  ds.foldl (fun acc c => acc * 10 + digitVal c) 0

/-- Modelled from the spec: JSON integer literal parsing (strict grammar,
no leading zeros; fraction and exponent forms are outside the embedding). -/
def parseIntLit (cs : List Char) : Option (Int × List Char) :=
  let (neg, cs1) := match cs with
    | '-' :: rest => (true, rest)
    | _ => (false, cs)
  match takeDigits cs1 with
  | ([], _) => none
  | (ds, rest) =>
    if ds.length > 1 ∧ ds.headD '0' = '0' then none
    else
      match rest with
      | '.' :: _ => none
      | 'e' :: _ => none
      | 'E' :: _ => none
      | _ =>
        let n : Int := Int.ofNat (digitsToNat ds)
        some (if neg then -n else n, rest)

/-- JS object construction: key order from first occurrence, value from the
last assignment (duplicate keys of a JSON text collapse this way). -/
def jsObjInsert (m : List (String × Json)) (k : String) (v : Json) : List (String × Json) :=
  if m.any (fun p => p.1 = k) then
    m.map (fun p => if p.1 = k then (k, v) else p)
  else m ++ [(k, v)]

def jsObjOfPairs (kvs : List (String × Json)) : List (String × Json) :=
  kvs.foldl (fun m p => jsObjInsert m p.1 p.2) []

mutual

/-- Modelled from the spec: recursive-descent JSON.parse.  The fuel argument
only bounds the recursion; parseJson supplies more fuel than any input can
consume. -/
def parseVal : Nat → List Char → Except String (Json × List Char)
  | 0, _ => .error "JSON nesting too deep"
  | fuel + 1, cs =>
    match skipWs cs with
    | [] => .error "Unexpected end of JSON input"
    | c :: rest =>
      if c = 'n' then
        match dropLit ['u', 'l', 'l'] rest with
        | some rest2 => .ok (Json.null, rest2)
        | none => .error "Unexpected token in JSON"
      else if c = 't' then
        match dropLit ['r', 'u', 'e'] rest with
        | some rest2 => .ok (Json.bool true, rest2)
        | none => .error "Unexpected token in JSON"
      else if c = 'f' then
        match dropLit ['a', 'l', 's', 'e'] rest with
        | some rest2 => .ok (Json.bool false, rest2)
        | none => .error "Unexpected token in JSON"
      else if c = '"' then
        match parseStrBody [] rest with
        | some (s, rest2) => .ok (Json.str s, rest2)
        | none => .error "Bad string in JSON"
      else if c = '[' then
        match skipWs rest with
        | ']' :: rest2 => .ok (Json.arr [], rest2)
        | _ => do
          let (es, rest2) ← parseElems fuel rest
          .ok (Json.arr es, rest2)
      else if c = '{' then
        match skipWs rest with
        | '}' :: rest2 => .ok (Json.obj [], rest2)
        | _ => do
          let (kvs, rest2) ← parseMembers fuel rest
          .ok (Json.obj (jsObjOfPairs kvs), rest2)
      else
        match parseIntLit (c :: rest) with
        | some (n, rest2) => .ok (Json.num n, rest2)
        | none => .error "Unexpected token in JSON"

def parseElems : Nat → List Char → Except String (List Json × List Char)
  | 0, _ => .error "JSON nesting too deep"
  | fuel + 1, cs => do
    let (v, rest) ← parseVal fuel cs
    match skipWs rest with
    | ',' :: rest2 => do
      let (vs, rest3) ← parseElems fuel rest2
      .ok (v :: vs, rest3)
    | ']' :: rest2 => .ok ([v], rest2)
    | _ => .error "Expected comma or close bracket in JSON array"

def parseMembers : Nat → List Char → Except String (List (String × Json) × List Char)
  | 0, _ => .error "JSON nesting too deep"
  | fuel + 1, cs =>
    match skipWs cs with
    | '"' :: rest =>
      match parseStrBody [] rest with
      | none => .error "Bad string in JSON"
      | some (k, rest2) =>
        match skipWs rest2 with
        | ':' :: rest3 => do
          let (v, rest4) ← parseVal fuel rest3
          match skipWs rest4 with
          | ',' :: rest5 => do
            let (kvs, rest6) ← parseMembers fuel rest5
            .ok ((k, v) :: kvs, rest6)
          | '}' :: rest5 => .ok ([(k, v)], rest5)
          | _ => .error "Expected comma or close brace in JSON object"
        | _ => .error "Expected colon in JSON object"
    | _ => .error "Expected string key in JSON object"

end

/-- Top-level JSON.parse model: parse one value and require only trailing
whitespace after it. -/
def parseJson (s : String) : Except String Json :=
  match parseVal (s.length + 1) s.data with
  | .error e => .error e
  | .ok (v, rest) =>
    if (skipWs rest).isEmpty then .ok v
    else .error "Unexpected non-whitespace character after JSON"

/-! ### Canonical JSON serialization (RFC 8785 style), modelled from the spec -/

def hexChar (n : Nat) : Char :=
  Char.ofNat (if n < 10 then 48 + n else 87 + n)

/-- JSON.stringify escaping of a single character, as the canonical
serialization uses it. -/
def escapeJsonChar (c : Char) : List Char :=
  if c = '"' then ['\\', '"']
  else if c = '\\' then ['\\', '\\']
  else if c = '\x08' then ['\\', 'b']
  else if c = '\x09' then ['\\', 't']
  else if c = '\x0a' then ['\\', 'n']
  else if c = '\x0c' then ['\\', 'f']
  else if c = '\x0d' then ['\\', 'r']
  else if c.toNat < 32 then ['\\', 'u', '0', '0', hexChar (c.toNat / 16), hexChar (c.toNat % 16)]
  else [c]

def canonStr (s : String) : String :=
  String.mk ('"' :: (s.data.flatMap escapeJsonChar ++ ['"']))

def intRepr (n : Int) : String :=
  if n < 0 then "-" ++ Nat.repr n.natAbs else Nat.repr n.natAbs

/-- Key order used when canonicalizing an object: lexicographic on the key
strings. -/
def keyLe (p q : String × String) : Prop := p.1 ≤ q.1

instance : DecidableRel keyLe := fun p q => inferInstanceAs (Decidable (p.1 ≤ q.1))

def sortPairs (l : List (String × String)) : List (String × String) :=
  List.insertionSort keyLe l

def renderPair (p : String × String) : String := canonStr p.1 ++ ":" ++ p.2

mutual

/-- Modelled from the spec: the canonicalization step of the Canonical
Hasher — a deterministic serialization with object keys sorted
lexicographically, no insignificant whitespace, and fixed number
formatting (the canonicalize dependency of src/hash.ts). -/
def canonicalize : Json → String
  | Json.null => "null"
  | Json.bool b => if b then "true" else "false"
  | Json.num n => intRepr n
  | Json.str s => canonStr s
  | Json.arr es => "[" ++ String.intercalate "," (canonList es) ++ "]"
  | Json.obj kvs =>
    "\x7b" ++ String.intercalate "," ((sortPairs (canonPairs kvs)).map renderPair)
      ++ "\x7d"

def canonList : List Json → List String
  | [] => []
  | e :: es => canonicalize e :: canonList es

def canonPairs : List (String × Json) → List (String × String)
  | [] => []
  | (k, v) :: ps => (k, canonicalize v) :: canonPairs ps

end

lemma canonList_eq (es : List Json) : canonList es = es.map canonicalize := by
  induction es with
  | nil => rfl
  | cons e t ih => simp [canonList, ih]

lemma canonPairs_eq (kvs : List (String × Json)) :
    canonPairs kvs = kvs.map (fun p => (p.1, canonicalize p.2)) := by
  induction kvs with
  | nil => rfl
  | cons p t ih =>
    cases p with
    | mk k v => simp [canonPairs, ih]

/-! ### SHA-256, modelled from the spec (FIPS 180-4), with the round and
initialization constants derived from the primes they are defined from -/

def m32 : Nat := 4294967296

/-- Integer cube root by bisection; the fuel bounds the number of halvings
of the search interval. -/
def icbrtAux : Nat → Nat → Nat → Nat → Nat
  | 0, lo, _, _ => lo
  | fuel + 1, lo, hi, n =>
    if hi ≤ lo + 1 then lo
    else
      let mid := (lo + hi) / 2
      if mid * mid * mid ≤ n then icbrtAux fuel mid hi n else icbrtAux fuel lo mid n

def icbrt (n : Nat) : Nat := icbrtAux 200 0 (n + 2) n

def first64Primes : List Nat :=
  [2, 3, 5, 7, 11, 13, 17, 19, 23, 29, 31, 37, 41, 43, 47, 53,
   59, 61, 67, 71, 73, 79, 83, 89, 97, 101, 103, 107, 109, 113, 127, 131,
   137, 139, 149, 151, 157, 163, 167, 173, 179, 181, 191, 193, 197, 199, 211, 223,
   227, 229, 233, 239, 241, 251, 257, 263, 269, 271, 277, 281, 283, 293, 307, 311]

/-- The 64 SHA-256 round constants: first 32 bits of the fractional parts of
the cube roots of the first 64 primes. -/
def shaK : List Nat := first64Primes.map (fun p => icbrt (p * 2 ^ 96) % m32)

/-- Integer square root by bisection, mirroring icbrt. -/
def isqrtAux : Nat → Nat → Nat → Nat → Nat
  | 0, lo, _, _ => lo
  | fuel + 1, lo, hi, n =>
    if hi ≤ lo + 1 then lo
    else
      let mid := (lo + hi) / 2
      if mid * mid ≤ n then isqrtAux fuel mid hi n else isqrtAux fuel lo mid n

def isqrt (n : Nat) : Nat := isqrtAux 200 0 (n + 2) n

/-- The initial hash value: first 32 bits of the fractional parts of the
square roots of the first 8 primes. -/
def shaH0 : List Nat :=
  [2, 3, 5, 7, 11, 13, 17, 19].map (fun p => isqrt (p * 2 ^ 64) % m32)

def rotr (n x : Nat) : Nat := ((x >>> n) ||| (x <<< (32 - n))) % m32

def shaCh (e f g : Nat) : Nat := (e &&& f) ^^^ ((e ^^^ 4294967295) &&& g)
def shaMaj (a b c : Nat) : Nat := (a &&& b) ^^^ (a &&& c) ^^^ (b &&& c)
def bsig0 (a : Nat) : Nat := rotr 2 a ^^^ rotr 13 a ^^^ rotr 22 a
def bsig1 (e : Nat) : Nat := rotr 6 e ^^^ rotr 11 e ^^^ rotr 25 e
def ssig0 (x : Nat) : Nat := rotr 7 x ^^^ rotr 18 x ^^^ (x >>> 3)
def ssig1 (x : Nat) : Nat := rotr 17 x ^^^ rotr 19 x ^^^ (x >>> 10)

/-- Extend the 16-word message schedule out to 64 words. -/
def extendSchedule : List Nat → Nat → List Nat
  | w, 0 => w
  | w, fuel + 1 =>
    extendSchedule
      (w ++ [(ssig1 (w.getD (w.length - 2) 0) + w.getD (w.length - 7) 0 +
        ssig0 (w.getD (w.length - 15) 0) + w.getD (w.length - 16) 0) % m32]) fuel

structure ShaState where
  a : Nat
  b : Nat
  c : Nat
  d : Nat
  e : Nat
  f : Nat
  g : Nat
  h : Nat

def shaRound (s : ShaState) (kw : Nat × Nat) : ShaState :=
  let t1 := (s.h + bsig1 s.e + shaCh s.e s.f s.g + kw.1 + kw.2) % m32
  let t2 := (bsig0 s.a + shaMaj s.a s.b s.c) % m32
  ⟨(t1 + t2) % m32, s.a, s.b, s.c, (s.d + t1) % m32, s.e, s.f, s.g⟩

def compressBlock (hs : List Nat) (block : List Nat) : List Nat :=
  let w := extendSchedule block 48
  let s0 : ShaState := ⟨hs.getD 0 0, hs.getD 1 0, hs.getD 2 0, hs.getD 3 0,
    hs.getD 4 0, hs.getD 5 0, hs.getD 6 0, hs.getD 7 0⟩
  let s := (shaK.zip w).foldl shaRound s0
  [(s0.a + s.a) % m32, (s0.b + s.b) % m32, (s0.c + s.c) % m32, (s0.d + s.d) % m32,
   (s0.e + s.e) % m32, (s0.f + s.f) % m32, (s0.g + s.g) % m32, (s0.h + s.h) % m32]

def beBytes8 (n : Nat) : List Nat :=
  (List.range 8).map (fun i => (n >>> (8 * (7 - i))) % 256)

def sha256Pad (msg : List Nat) : List Nat :=
  let r := (msg.length + 1) % 64
  msg ++ [128] ++ List.replicate ((120 - r) % 64) 0 ++ beBytes8 (msg.length * 8)

def bytesToWords : List Nat → List Nat
  | b0 :: b1 :: b2 :: b3 :: rest =>
    (b0 * 16777216 + b1 * 65536 + b2 * 256 + b3) :: bytesToWords rest
  | _ => []

def chunkBlocks : Nat → List Nat → List (List Nat)
  | 0, _ => []
  | _, [] => []
  | fuel + 1, l => l.take 16 :: chunkBlocks fuel (l.drop 16)

def sha256Words (msg : List Nat) : List Nat :=
  let words := bytesToWords (sha256Pad msg)
  (chunkBlocks words.length words).foldl compressBlock shaH0

def wordHexChars (w : Nat) : List Char :=
  [hexChar (w >>> 28 % 16), hexChar (w >>> 24 % 16), hexChar (w >>> 20 % 16),
   hexChar (w >>> 16 % 16), hexChar (w >>> 12 % 16), hexChar (w >>> 8 % 16),
   hexChar (w >>> 4 % 16), hexChar (w % 16)]

/-- Lowercase hexadecimal rendering of a SHA-256 digest of a byte string. -/
def sha256Hex (msg : List Nat) : String :=
  String.mk ((sha256Words msg).flatMap wordHexChars)

def utf8Char (c : Char) : List Nat :=
  let n := c.toNat
  if n < 128 then [n]
  else if n < 2048 then [192 + n / 64, 128 + n % 64]
  else if n < 65536 then [224 + n / 4096, 128 + n / 64 % 64, 128 + n % 64]
  else [240 + n / 262144, 128 + n / 4096 % 64, 128 + n / 64 % 64, 128 + n % 64]

def utf8Bytes (s : String) : List Nat := s.data.flatMap utf8Char

/-- src/hash.ts hashContent: JSON.parse the content, canonicalize it, and
hash the canonical form with SHA-256 rendered as lowercase hex.  A parse
failure or a falsy canonical form is a thrown error; the engine-specific
SyntaxError message is collapsed to a fixed string. -/
def hashContentM (content : String) : Except String String :=
  match parseJson content with
  | .error _ => .error "SyntaxError: invalid JSON"
  | .ok parsed =>
    let canonical := canonicalize parsed
    if canonical = "" then .error "Failed to canonicalize JSON"
    else .ok (sha256Hex (utf8Bytes canonical))

/-! ### Equivalence of JSON values up to object key ordering -/

/-- Two JSON values that differ only in the ordering of object keys (at any
depth).  An object step first rewrites the values pointwise and then
permutes the (distinct-keyed) entries. -/
inductive JsonEquiv : Json → Json → Prop where
  | nullCase : JsonEquiv Json.null Json.null
  | boolCase (b : Bool) : JsonEquiv (Json.bool b) (Json.bool b)
  | numCase (n : Int) : JsonEquiv (Json.num n) (Json.num n)
  | strCase (s : String) : JsonEquiv (Json.str s) (Json.str s)
  | arrCase (l₁ l₂ : List Json) (hlen : l₁.length = l₂.length)
      (h : ∀ p ∈ l₁.zip l₂, JsonEquiv p.1 p.2) : JsonEquiv (Json.arr l₁) (Json.arr l₂)
  | objCase (kvs₁ kvs₂ kvs₃ : List (String × Json))
      (hlen : kvs₁.length = kvs₂.length)
      (hkeys : ∀ p ∈ kvs₁.zip kvs₂, p.1.1 = p.2.1)
      (hvals : ∀ p ∈ kvs₁.zip kvs₂, JsonEquiv p.1.2 p.2.2)
      (hperm : kvs₂.Perm kvs₃)
      (hnd : (kvs₂.map Prod.fst).Nodup) :
      JsonEquiv (Json.obj kvs₁) (Json.obj kvs₃)

/-- Strict key order on serialized object entries. -/
def keyLt (p q : String × String) : Prop := p.1 < q.1

instance : IsTotal (String × String) keyLe := ⟨fun p q => le_total p.1 q.1⟩

instance : IsTrans (String × String) keyLe := ⟨fun _ _ _ h₁ h₂ => le_trans h₁ h₂⟩

instance : IsAntisymm (String × String) keyLt := ⟨fun _ _ h₁ h₂ => absurd h₂ (lt_asymm h₁)⟩

lemma sorted_keyLt_of_nodup {l : List (String × String)}
    (hs : List.Pairwise keyLe l) (hnd : (l.map Prod.fst).Nodup) :
    List.Pairwise keyLt l := by
  have hnd' : List.Pairwise (fun p q : String × String => p.1 ≠ q.1) l :=
    List.pairwise_map.mp hnd
  exact (hs.and hnd').imp (fun hpq => lt_of_le_of_ne hpq.1 hpq.2)

/-- Sorting by key sends permuted lists with distinct keys to the same
list. -/
lemma sortPairs_perm_eq {l₁ l₂ : List (String × String)} (hp : l₁.Perm l₂)
    (hnd : (l₁.map Prod.fst).Nodup) : sortPairs l₁ = sortPairs l₂ := by
  have hperm : (sortPairs l₁).Perm (sortPairs l₂) :=
    (List.perm_insertionSort keyLe l₁).trans
      (hp.trans (List.perm_insertionSort keyLe l₂).symm)
  have hnd₁ : ((sortPairs l₁).map Prod.fst).Nodup :=
    ((List.perm_insertionSort keyLe l₁).map Prod.fst).symm.nodup hnd
  have hnd₂ : ((sortPairs l₂).map Prod.fst).Nodup :=
    (hperm.map Prod.fst).nodup hnd₁
  exact List.eq_of_perm_of_sorted hperm
    (sorted_keyLt_of_nodup (List.sorted_insertionSort keyLe l₁) hnd₁)
    (sorted_keyLt_of_nodup (List.sorted_insertionSort keyLe l₂) hnd₂)

lemma map_eq_of_zip {α β γ : Type} (f : α → γ) (g : β → γ) :
    ∀ (l₁ : List α) (l₂ : List β), l₁.length = l₂.length →
      (∀ p ∈ l₁.zip l₂, f p.1 = g p.2) → l₁.map f = l₂.map g := by
  intro l₁
  induction l₁ with
  | nil =>
    intro l₂ hlen _
    cases l₂ with
    | nil => rfl
    | cons b t₂ => simp at hlen
  | cons a t ih =>
    intro l₂ hlen h
    cases l₂ with
    | nil => simp at hlen
    | cons b t₂ =>
      have h1 := h (a, b) (by simp)
      have h2 := ih t₂ (by simpa using hlen) (fun p hp => h p (by simp [hp]))
      simp [h1, h2]

lemma canon_arr (es : List Json) :
    canonicalize (Json.arr es) =
      "[" ++ String.intercalate "," (es.map canonicalize) ++ "]" := by
  rw [canonicalize, canonList_eq]

lemma canon_obj (kvs : List (String × Json)) :
    canonicalize (Json.obj kvs) =
      "\x7b" ++ String.intercalate ","
        ((sortPairs (kvs.map (fun p => (p.1, canonicalize p.2)))).map renderPair)
        ++ "\x7d" := by
  rw [canonicalize, canonPairs_eq]

/-- Canonicalization is invariant under JsonEquiv: equal up to key order
means equal canonical serializations. -/
theorem canonicalize_eq_of_equiv (v₁ v₂ : Json) (h : JsonEquiv v₁ v₂) :
    canonicalize v₁ = canonicalize v₂ := by
  induction h with
  | nullCase => rfl
  | boolCase b => rfl
  | numCase n => rfl
  | strCase s => rfl
  | arrCase l₁ l₂ hlen h ih =>
    rw [canon_arr, canon_arr, map_eq_of_zip canonicalize canonicalize l₁ l₂ hlen ih]
  | objCase kvs₁ kvs₂ kvs₃ hlen hkeys hvals hperm hnd ih =>
    rw [canon_obj, canon_obj]
    have hser : kvs₁.map (fun p => (p.1, canonicalize p.2)) =
        kvs₂.map (fun p => (p.1, canonicalize p.2)) := by
      apply map_eq_of_zip _ _ kvs₁ kvs₂ hlen
      intro p hp
      simp [hkeys p hp, ih p hp]
    have hnd' : ((kvs₂.map (fun p => (p.1, canonicalize p.2))).map Prod.fst).Nodup := by
      rw [List.map_map]
      exact hnd
    rw [hser, sortPairs_perm_eq (hperm.map (fun p => (p.1, canonicalize p.2))) hnd']

/-- C2: hashContent is a pure function (hashing the same JSON document twice
yields identical digests), and any two JSON texts whose parses are equal up
to object key ordering — which subsumes differences in insignificant
whitespace and in numeric formatting that round-trips to the same value,
since those already parse to the identical value — receive identical
digests. -/
theorem hashContent_det_order_indep :
    (∀ s : String, hashContentM s = hashContentM s) ∧
    (∀ s₁ s₂ v₁ v₂, parseJson s₁ = Except.ok v₁ → parseJson s₂ = Except.ok v₂ →
      JsonEquiv v₁ v₂ → hashContentM s₁ = hashContentM s₂) := by
  constructor
  · intro s
    rfl
  · intro s₁ s₂ v₁ v₂ h₁ h₂ heq
    unfold hashContentM
    rw [h₁, h₂]
    simp only [canonicalize_eq_of_equiv v₁ v₂ heq]

/-- Witness for C2 at the concrete pair from the spec. -/
theorem hashContent_det_order_indep_witness :
    hashContentM "\x7b\"a\":1,\"b\":2\x7d" = hashContentM "\x7b\"b\":2,\"a\":1\x7d" := by
  apply hashContent_det_order_indep.2 "\x7b\"a\":1,\"b\":2\x7d" "\x7b\"b\":2,\"a\":1\x7d"
    (Json.obj [("a", Json.num 1), ("b", Json.num 2)])
    (Json.obj [("b", Json.num 2), ("a", Json.num 1)]) (by rfl) (by rfl)
  apply JsonEquiv.objCase _ [("a", Json.num 1), ("b", Json.num 2)] _ rfl
  · intro p hp
    simp at hp
    rcases hp with h | h <;> subst h <;> rfl
  · intro p hp
    simp at hp
    rcases hp with h | h <;> subst h <;> exact JsonEquiv.numCase _
  · exact List.Perm.swap _ _ _
  · simp

/-! ### Ticket validation (src/verify.ts validateTicket) -/

/-- UTF-16 code-unit lexicographic string comparison, as the JS relational
operators perform it (all compared strings here are ASCII). -/
def charListLe : List Char → List Char → Bool
  | [], _ => true
  | _ :: _, [] => false
  | a :: as, b :: bs =>
    if a.toNat < b.toNat then true
    else if b.toNat < a.toNat then false
    else charListLe as bs

def jsStrLe (a b : String) : Bool := charListLe a.data b.data

def jsStrLt (a b : String) : Bool := !(jsStrLe b a)

structure ArweaveTicket where
  type : String
  owner : String
  nspace : String
  date_start : String
  date_end : String
deriving DecidableEq

/-- Raw ticket JSON object as validateTicket receives it: each consulted
property as a JS value, `none` meaning the property is absent. -/
structure RawTicket where
  type : Option Json
  owner : Option Json
  nspace : Option Json
  date_start : Option Json
  date_end : Option Json

/-- JS falsiness of a property value (`undefined`, `null`, `false`, `0`,
and the empty string are falsy). -/
def jsFalsy : Option Json → Bool
  | none => true
  | some Json.null => true
  | some (Json.bool b) => !b
  | some (Json.num n) => n = 0
  | some (Json.str s) => s = ""
  | some (Json.arr _) => false
  | some (Json.obj _) => false

def isStrVal : Option Json → Bool
  | some (Json.str _) => true
  | _ => false

def asStr : Option Json → String
  | some (Json.str s) => s
  | _ => ""

/-- JS strict equality of a property value against a string literal. -/
def strictEqStr (v : Option Json) (t : String) : Bool :=
  match v with
  | some (Json.str s) => s == t
  | _ => false

/-- The /^\d\x7b4\x7d-\d\x7b2\x7d-\d\x7b2\x7d$/ date format test. -/
def isDateFormat (s : String) : Bool :=
  match s.data with
  | [y1, y2, y3, y4, h1, m1, m2, h2, d1, d2] =>
    y1.isDigit && y2.isDigit && y3.isDigit && y4.isDigit && h1 = '-' &&
      m1.isDigit && m2.isDigit && h2 = '-' && d1.isDigit && d2.isDigit
  | _ => false

/-- src/verify.ts validateTicket: structural checks in source order, then the
date-order check; returns the validated ticket object. -/
def validateTicket (json : RawTicket) : Except String ArweaveTicket :=
  if !(strictEqStr json.type "arweave") then
    .error "Invalid ticket: type must be \x27arweave\x27"
  else if jsFalsy json.owner || !(isStrVal json.owner) then
    .error "Invalid ticket: missing or invalid \x27owner\x27 address"
  else if jsFalsy json.nspace || !(isStrVal json.nspace) then
    .error "Invalid ticket: missing or invalid \x27namespace\x27"
  else if jsFalsy json.date_start || !(isStrVal json.date_start) then
    .error "Invalid ticket: missing or invalid \x27date_start\x27"
  else if jsFalsy json.date_end || !(isStrVal json.date_end) then
    .error "Invalid ticket: missing or invalid \x27date_end\x27"
  else if !(isDateFormat (asStr json.date_start)) then
    .error "Invalid ticket: date_start must be YYYY-MM-DD format"
  else if !(isDateFormat (asStr json.date_end)) then
    .error "Invalid ticket: date_end must be YYYY-MM-DD format"
  else if jsStrLt (asStr json.date_end) (asStr json.date_start) then
    .error "Invalid ticket: date_start must be before date_end"
  else
    .ok ⟨"arweave", asStr json.owner, asStr json.nspace,
      asStr json.date_start, asStr json.date_end⟩

/-! ### Calendar dates (src/arweave.ts generateDateRange) -/

structure YMD where
  y : Nat
  m : Nat
  d : Nat
deriving DecidableEq

def isLeap (y : Nat) : Bool :=
  y % 4 = 0 && (y % 100 != 0 || y % 400 = 0)

def daysInMonth (y : Nat) : Nat → Nat
  | 1 => 31
  | 2 => if isLeap y then 29 else 28
  | 3 => 31
  | 4 => 30
  | 5 => 31
  | 6 => 30
  | 7 => 31
  | 8 => 31
  | 9 => 30
  | 10 => 31
  | 11 => 30
  | 12 => 31
  | _ => 0

def validYMD (v : YMD) : Prop :=
  1 ≤ v.m ∧ v.m ≤ 12 ∧ 1 ≤ v.d ∧ v.d ≤ daysInMonth v.y v.m

instance (v : YMD) : Decidable (validYMD v) := by
  unfold validYMD
  infer_instance

/-- Advance a date by one UTC day, as setUTCDate(getUTCDate() + 1)
normalizes it. -/
def nextDay (v : YMD) : YMD :=
  if v.d < daysInMonth v.y v.m then ⟨v.y, v.m, v.d + 1⟩
  else if v.m < 12 then ⟨v.y, v.m + 1, 1⟩
  else ⟨v.y + 1, 1, 1⟩

/-- Leap years among 0..y-1 in the proleptic Gregorian calendar. -/
def leapsBefore (y : Nat) : Nat :=
  (y + 3) / 4 - (y + 99) / 100 + (y + 399) / 400

def daysBeforeYear (y : Nat) : Nat := 365 * y + leapsBefore y

def daysBeforeMonth (leap : Bool) (m : Nat) : Nat :=
  (match m with
   | 1 => 0
   | 2 => 31
   | 3 => 59
   | 4 => 90
   | 5 => 120
   | 6 => 151
   | 7 => 181
   | 8 => 212
   | 9 => 243
   | 10 => 273
   | 11 => 304
   | 12 => 334
   | _ => 365)
  + (if leap && m ≥ 3 then 1 else 0)

/-- Day ordinal of a calendar date; equals the Date timestamp up to an
affine change of units, so timestamp comparisons are rataDie
comparisons. -/
def rataDie (v : YMD) : Nat :=
  daysBeforeYear v.y + daysBeforeMonth (isLeap v.y) v.m + v.d

def pad2 (n : Nat) : String :=
  if n < 10 then "0" ++ Nat.repr n else Nat.repr n

def pad4 (n : Nat) : String :=
  if n < 10 then "000" ++ Nat.repr n
  else if n < 100 then "00" ++ Nat.repr n
  else if n < 1000 then "0" ++ Nat.repr n
  else Nat.repr n

/-- toISOString().split("T")[0]. -/
def formatYMD (v : YMD) : String :=
  pad4 v.y ++ "-" ++ pad2 v.m ++ "-" ++ pad2 v.d

/-- Modelled from the spec: new Date(s + "T00:00:00Z") for the fixed-width
ISO form; a component out of calendar range gives an Invalid Date,
modelled as `none`. -/
def jsParseIsoDate (s : String) : Option YMD :=
  match s.data with
  | [y1, y2, y3, y4, h1, m1, m2, h2, d1, d2] =>
    if y1.isDigit && y2.isDigit && y3.isDigit && y4.isDigit && h1 = '-' &&
        m1.isDigit && m2.isDigit && h2 = '-' && d1.isDigit && d2.isDigit then
      let v : YMD := ⟨digitVal y1 * 1000 + digitVal y2 * 100 + digitVal y3 * 10 + digitVal y4,
        digitVal m1 * 10 + digitVal m2, digitVal d1 * 10 + digitVal d2⟩
      if validYMD v then some v else none
    else none
  | _ => none

/-- Date object comparison is timestamp comparison. -/
def ymdLe (a b : YMD) : Bool := rataDie a ≤ rataDie b

def dateLoop : Nat → YMD → YMD → List String
  | 0, _, _ => []
  | fuel + 1, cur, en =>
    if ymdLe cur en then formatYMD cur :: dateLoop fuel (nextDay cur) en else []

/-- src/arweave.ts generateDateRange: while (current <= end) push the ISO
date and advance one day.  An invalid date makes every comparison false, so
the loop body never runs.  The fuel is exactly the iteration count of the
source loop. -/
def generateDateRange (startDate endDate : String) : List String :=
  match jsParseIsoDate startDate, jsParseIsoDate endDate with
  | some st, some en => dateLoop (rataDie en + 1 - rataDie st) st en
  | _, _ => []

/-! ### Archive scanning (src/verify.ts processZipAndHash) -/

/-- One entry of the loaded ZIP: its path in the archive, the JSZip
directory flag, and its decoded string content. -/
structure ZipEntry where
  path : String
  dir : Bool
  content : String
deriving DecidableEq

/-- Split a character list on a separator character; mirrors how the regex
treats the slash structure of a path. -/
def splitOnChar (sep : Char) : List Char → List (List Char)
  | [] => [[]]
  | c :: rest =>
    match splitOnChar sep rest with
    | [] => [[]]
    | h :: t => if c = sep then [] :: h :: t else (c :: h) :: t

def allDigitsL (l : List Char) : Bool := l.all (fun c => c.isDigit)

/-- Test-and-capture of the /(\d\x7b4\x7d)\/(\d\x7b2\x7d)\/(\d\x7b2\x7d)\/[^\/]+\.json$/
pattern: the last path segment is a .json file name with a nonempty stem,
the two before it are exactly two digits each, and the segment before those
ends in four digits (the year group is unanchored on the left).  Returns
the YYYY-MM-DD reconstruction the source builds from the captures. -/
def datePatternMatch (p : String) : Option String :=
  match (splitOnChar '/' p.data).reverse with
  | f :: d :: m :: y :: _ =>
    if f.length ≥ 6 && f.reverse.take 5 = ['n', 'o', 's', 'j', '.'] &&
        d.length = 2 && allDigitsL d && m.length = 2 && allDigitsL m &&
        y.length ≥ 4 && allDigitsL (y.reverse.take 4).reverse then
      some (String.mk ((y.reverse.take 4).reverse ++ '-' :: m ++ '-' :: d))
    else none
  | _ => none

/-- src/verify.ts processZipAndHash: filter entry paths by the date
pattern (NoMatchingEntries if none), keep non-directory entries whose
reconstructed date is within [dateStart, dateEnd] (NoEntriesInRange if
none), then hash each file content in order; a hash failure aborts. -/
def processZipAndHash (entries : List ZipEntry) (dateStart dateEnd : String) :
    Except String (List String) :=
  let matchingEntries := entries.filter (fun e => (datePatternMatch e.path).isSome)
  if matchingEntries.isEmpty then
    .error "No log files found in ZIP. Expected structure: \x7bfolder\x7d/YYYY/MM/DD/\x7bhash\x7d.json"
  else
    let filesToProcess := matchingEntries.filter (fun e =>
      !e.dir &&
        (match datePatternMatch e.path with
         | some dp => jsStrLe dateStart dp && jsStrLe dp dateEnd
         | none => false))
    if filesToProcess.isEmpty then
      .error ("No log files found within date range " ++ dateStart ++ " to " ++ dateEnd)
    else
      filesToProcess.mapM (fun e => hashContentM e.content)

/-! ### Ledger client (src/arweave.ts) -/

structure BlockInfo where
  timestamp : Int
  height : Int
deriving DecidableEq

structure TxNode where
  id : String
  block : Option BlockInfo
  tags : List (String × String)
deriving DecidableEq

structure TxEdge where
  cursor : String
  node : TxNode
deriving DecidableEq

structure PageData where
  hasNextPage : Bool
deriving DecidableEq

structure TxConnection where
  pageInfo : Option PageData
  edges : Option (List TxEdge)
deriving DecidableEq

structure GqlData where
  transactions : Option TxConnection
deriving DecidableEq

/-- Decoded JSON body of one GraphQL response, with every level the source
reads through optional chaining kept optional. -/
structure GqlResp where
  errors : Option (List String)
  data : Option GqlData
deriving DecidableEq

structure ArweaveTxDetails where
  txId : String
  hash : String
  notarizedAt : String
  notarizedDateUtc : String
  sessionId : String
  sequence : Int
  blockHeight : Option Int
  blockTimestamp : Option Int
  confirmations : Int
deriving DecidableEq

/-- Object.fromEntries over the tag list: the last binding of a name
wins. -/
def tagsGet (tags : List (String × String)) (k : String) : Option String :=
  tags.foldl (fun acc t => if t.1 = k then some t.2 else acc) none

/-- JS x || dflt on an optional string (the empty string is falsy). -/
def jsOrStr (v : Option String) (dflt : String) : String :=
  match v with
  | some s => if s = "" then dflt else s
  | none => dflt

/-- JS parseInt on the strings this code feeds it: optional sign then
leading decimal digits.  A digitless input is NaN in JS; no consulted value
is digitless, and the model collapses that case to 0. -/
def jsParseInt (s : String) : Int :=
  let cs := s.data.dropWhile isJsonWs
  match cs with
  | '-' :: rest => -(Int.ofNat (digitsToNat (takeDigits rest).1))
  | '+' :: rest => Int.ofNat (digitsToNat (takeDigits rest).1)
  | _ => Int.ofNat (digitsToNat (takeDigits cs).1)

/-- JS x || null on an optional number: null and 0 both collapse to
null. -/
def jsOrNullInt (v : Option Int) : Option Int :=
  match v with
  | some n => if n = 0 then none else some n
  | none => none

/-- The tag-bag decoding of one edge node into an ArweaveTxDetails record
(src/arweave.ts lines 92-109): absent tags default per the || fallbacks and
absent block metadata yields null height and timestamp. -/
def decodeNode (node : TxNode) : ArweaveTxDetails where
  txId := node.id
  hash := jsOrStr (tagsGet node.tags "Hash") ""
  notarizedAt := jsOrStr (tagsGet node.tags "Notarized-At") ""
  notarizedDateUtc := jsOrStr (tagsGet node.tags "Notarized-Date-UTC") ""
  sessionId := jsOrStr (tagsGet node.tags "Session-ID") ""
  sequence := jsParseInt (jsOrStr (tagsGet node.tags "Sequence") "0")
  blockHeight := jsOrNullInt (node.block.map (fun b => b.height))
  blockTimestamp := jsOrNullInt (node.block.map (fun b => b.timestamp))
  confirmations := 0

/-- The pagination loop of queryArweaveTransactions.  The transport is a
function from the continuation cursor to the response (the owner, namespace
and date tag filters of the POSTed query are fixed inside it); `.error` is
a non-2xx or network failure.  The fuel only bounds the page count; the
theorems supply enough for the services they quantify over. -/
def queryLoop (svc : Option String → Except String GqlResp) :
    Nat → Option String → List ArweaveTxDetails → Except String (List ArweaveTxDetails)
  | 0, _, _ => .error "page budget exhausted"
  | fuel + 1, cursor, acc =>
    match svc cursor with
    | .error msg => .error ("Arweave query failed: " ++ msg)
    | .ok resp =>
      match resp.errors with
      | some errs => .error ("Arweave GraphQL error: " ++ errs.headD "undefined")
      | none =>
        let transactions := resp.data.bind (fun d => d.transactions)
        let edges := (transactions.bind (fun t => t.edges)).getD []
        let hasNext := ((transactions.bind (fun t => t.pageInfo)).map
          (fun p => p.hasNextPage)).getD false
        let acc2 := acc ++ edges.map (fun e => decodeNode e.node)
        if !hasNext || edges.isEmpty then .ok acc2
        else queryLoop svc fuel (some (((edges.map (fun e => e.cursor)).getLast?).getD "")) acc2

/-- src/arweave.ts queryArweaveTransactions: loop from no cursor with an
empty accumulator. -/
def queryArweaveTransactionsM (svc : Option String → Except String GqlResp)
    (fuel : Nat) : Except String (List ArweaveTxDetails) :=
  queryLoop svc fuel none []

/-- src/arweave.ts getCurrentBlockHeight: fetch the info endpoint; on
success, data.height || 0. -/
def getCurrentBlockHeightM (resp : Except String (Option Int)) : Except String Int :=
  match resp with
  | .error msg => .error ("Failed to get Arweave network info: " ++ msg)
  | .ok h => .ok (h.getD 0)

/-! ### Reconciliation (src/verify.ts verify) -/

structure VerificationResults where
  verified : List ArweaveTxDetails
  unnotarized : List String
  missing : List ArweaveTxDetails
deriving DecidableEq

/-- JS truthiness of the blockHeight field: null and 0 are falsy. -/
def jsTruthyInt (v : Option Int) : Bool :=
  match v with
  | some n => n != 0
  | none => false

/-- The confirmations back-fill of one record:
tx.confirmations = tx.blockHeight ? currentHeight - tx.blockHeight : 0. -/
def backfillOne (currentHeight : Int) (tx : ArweaveTxDetails) : ArweaveTxDetails :=
  { tx with confirmations :=
      if jsTruthyInt tx.blockHeight then currentHeight - tx.blockHeight.getD 0 else 0 }

def backfill (currentHeight : Int) (txs : List ArweaveTxDetails) : List ArweaveTxDetails :=
  txs.map (backfillOne currentHeight)

/-- The JS Map of hash to record: set appends a binding, get reads the most
recent binding of a key. -/
def buildArweaveMap (txs : List ArweaveTxDetails) : List (String × ArweaveTxDetails) :=
  txs.foldl (fun m tx => m ++ [(tx.hash, tx)]) []

def mapGet (m : List (String × ArweaveTxDetails)) (k : String) : Option ArweaveTxDetails :=
  ((m.filter (fun p => p.1 = k)).getLast?).map (fun p => p.2)

/-- One iteration of the classification loop over the local hashes. -/
def classifyStep (m : List (String × ArweaveTxDetails))
    (vu : List ArweaveTxDetails × List String) (h : String) :
    List ArweaveTxDetails × List String :=
  match mapGet m h with
  | some tx => (vu.1 ++ [tx], vu.2)
  | none => (vu.1, vu.2 ++ [h])

/-- src/verify.ts verify: hash the archive, query the ledger (transport
abstracted into svc, with the expanded date range fixed inside it), fetch
the current height once, back-fill confirmations, build the hash map, then
classify local hashes into verified/unnotarized and ledger records into
missing.  The localHashSet of the source is membership in localHashes. -/
def verifyModel (ticket : ArweaveTicket) (entries : List ZipEntry)
    (svc : Option String → Except String GqlResp)
    (heightResp : Except String (Option Int)) (fuel : Nat) :
    Except String VerificationResults :=
  match processZipAndHash entries ticket.date_start ticket.date_end with
  | .error e => .error e
  | .ok localHashes =>
    match queryArweaveTransactionsM svc fuel with
    | .error e => .error e
    | .ok arweaveTxs =>
      match getCurrentBlockHeightM heightResp with
      | .error e => .error e
      | .ok currentHeight =>
        let txs2 := backfill currentHeight arweaveTxs
        let arweaveMap := buildArweaveMap txs2
        let vu := localHashes.foldl (classifyStep arweaveMap) ([], [])
        .ok ⟨vu.1, vu.2, txs2.filter (fun tx => !(localHashes.contains tx.hash))⟩

/-! ### Reconciliation lemmas -/

lemma classify_foldl (m : List (String × ArweaveTxDetails)) (hs : List String) :
    ∀ (v : List ArweaveTxDetails) (u : List String),
      hs.foldl (classifyStep m) (v, u) =
        (v ++ hs.filterMap (mapGet m),
         u ++ hs.filter (fun h => (mapGet m h).isNone)) := by
  induction hs with
  | nil => intro v u; simp
  | cons h t ih =>
    intro v u
    cases hm : mapGet m h with
    | some tx =>
      simp [classifyStep, hm, ih, List.filterMap_cons, List.filter_cons]
    | none =>
      simp [classifyStep, hm, ih, List.filterMap_cons, List.filter_cons]

lemma filterMap_filter_length (m : List (String × ArweaveTxDetails)) (hs : List String) :
    (hs.filterMap (mapGet m)).length +
      (hs.filter (fun h => (mapGet m h).isNone)).length = hs.length := by
  induction hs with
  | nil => rfl
  | cons h t ih =>
    cases hm : mapGet m h <;> simp [hm, List.filterMap_cons, List.filter_cons] <;> omega

lemma buildArweaveMap_eq (txs : List ArweaveTxDetails) :
    buildArweaveMap txs = txs.map (fun tx => (tx.hash, tx)) := by
  have h : ∀ init, txs.foldl (fun m tx => m ++ [(tx.hash, tx)]) init =
      init ++ txs.map (fun tx => (tx.hash, tx)) := by
    induction txs with
    | nil => intro init; simp
    | cons tx t ih => intro init; simp [ih]
  simpa using h []

/-- The JS Map lookup over the full record list: the last record with the
given hash wins (the map is built front to back with overwriting set). -/
lemma mapGet_build (txs : List ArweaveTxDetails) (k : String) :
    mapGet (buildArweaveMap txs) k =
      (txs.filter (fun tx => tx.hash = k)).getLast? := by
  rw [buildArweaveMap_eq]
  unfold mapGet
  rw [List.filter_map, List.getLast?_map]
  simp [Option.map_map, Function.comp_def]

/-- Structure of a successful verify result in terms of its pipeline
stages. -/
lemma verify_ok_parts (ticket : ArweaveTicket) (entries : List ZipEntry)
    (svc : Option String → Except String GqlResp) (heightResp : Except String (Option Int))
    (fuel : Nat) (r : VerificationResults) (localHashes : List String)
    (txs : List ArweaveTxDetails) (currentHeight : Int)
    (hv : verifyModel ticket entries svc heightResp fuel = Except.ok r)
    (hl : processZipAndHash entries ticket.date_start ticket.date_end = Except.ok localHashes)
    (hq : queryArweaveTransactionsM svc fuel = Except.ok txs)
    (hh : getCurrentBlockHeightM heightResp = Except.ok currentHeight) :
    r = ⟨localHashes.filterMap (mapGet (buildArweaveMap (backfill currentHeight txs))),
         localHashes.filter
           (fun h => (mapGet (buildArweaveMap (backfill currentHeight txs)) h).isNone),
         (backfill currentHeight txs).filter
           (fun tx => !(localHashes.contains tx.hash))⟩ := by
  unfold verifyModel at hv
  rw [hl, hq, hh] at hv
  simp only [classify_foldl] at hv
  replace hv := Except.ok.inj hv
  subst hv
  simp

/-- C1: when verify succeeds, every local hash lands in exactly one of
verified (its looked-up record) or unnotarized, so the two sizes sum to the
number of local hashes processed (duplicates counted individually); missing
is exactly the retrieved records whose hash has no local counterpart, each
occurrence exactly once, and a record whose hash matches a local hash is
never in missing. -/
theorem verify_partition (ticket : ArweaveTicket) (entries : List ZipEntry)
    (svc : Option String → Except String GqlResp) (heightResp : Except String (Option Int))
    (fuel : Nat) (r : VerificationResults) (localHashes : List String)
    (txs : List ArweaveTxDetails) (currentHeight : Int)
    (hv : verifyModel ticket entries svc heightResp fuel = Except.ok r)
    (hl : processZipAndHash entries ticket.date_start ticket.date_end = Except.ok localHashes)
    (hq : queryArweaveTransactionsM svc fuel = Except.ok txs)
    (hh : getCurrentBlockHeightM heightResp = Except.ok currentHeight) :
    r.verified =
      localHashes.filterMap (mapGet (buildArweaveMap (backfill currentHeight txs))) ∧
    r.unnotarized = localHashes.filter
      (fun h => (mapGet (buildArweaveMap (backfill currentHeight txs)) h).isNone) ∧
    r.verified.length + r.unnotarized.length = localHashes.length ∧
    r.missing = (backfill currentHeight txs).filter
      (fun tx => !(localHashes.contains tx.hash)) ∧
    (∀ tx ∈ backfill currentHeight txs, tx.hash ∈ localHashes → tx ∉ r.missing) := by
  have hr := verify_ok_parts ticket entries svc heightResp fuel r localHashes txs
    currentHeight hv hl hq hh
  subst hr
  refine ⟨rfl, rfl, ?_, rfl, ?_⟩
  · exact filterMap_filter_length (buildArweaveMap (backfill currentHeight txs)) localHashes
  · intro tx htx hmem hcontra
    have h2 := (List.mem_filter.mp hcontra).2
    have h3 : localHashes.contains tx.hash = true := List.elem_eq_true_of_mem hmem
    rw [h3] at h2
    simp at h2

/-- Witness for C1: a one-entry archive and a ledger returning zero records;
the single local hash is unnotarized and the counts balance. -/
theorem verify_partition_witness :
    ∃ (r : VerificationResults) (localHashes : List String),
      verifyModel ⟨"arweave", "O", "ns", "2026-01-01", "2026-01-01"⟩
        [⟨"logs/2026/01/01/x.json", false, "\x7b\"k\":\"v\"\x7d"⟩]
        (fun _ => Except.ok ⟨none, some ⟨some ⟨some ⟨false⟩, some []⟩⟩⟩)
        (Except.ok (some 100)) 1 = Except.ok r ∧
      processZipAndHash [⟨"logs/2026/01/01/x.json", false, "\x7b\"k\":\"v\"\x7d"⟩]
        "2026-01-01" "2026-01-01" = Except.ok localHashes ∧
      r.verified.length + r.unnotarized.length = localHashes.length := by
  refine ⟨⟨[], [(hashContentM "\x7b\"k\":\"v\"\x7d").toOption.getD ""], []⟩,
    [(hashContentM "\x7b\"k\":\"v\"\x7d").toOption.getD ""], by rfl, by rfl, ?_⟩
  exact (verify_partition ⟨"arweave", "O", "ns", "2026-01-01", "2026-01-01"⟩
    [⟨"logs/2026/01/01/x.json", false, "\x7b\"k\":\"v\"\x7d"⟩]
    (fun _ => Except.ok ⟨none, some ⟨some ⟨some ⟨false⟩, some []⟩⟩⟩)
    (Except.ok (some 100)) 1
    ⟨[], [(hashContentM "\x7b\"k\":\"v\"\x7d").toOption.getD ""], []⟩
    [(hashContentM "\x7b\"k\":\"v\"\x7d").toOption.getD ""] [] 100
    (by rfl) (by rfl) (by rfl) (by rfl)).2.2.1

/-! ### Ticket validation, decoding and confirmation claims -/

lemma charListLe_refl (l : List Char) : charListLe l l = true := by
  induction l with
  | nil => rfl
  | cons a t ih => simp [charListLe, ih]

/-- C9: with every other field structurally valid, validateTicket fails
exactly when date_start is lexicographically greater than date_end, and a
ticket with equal dates is accepted and returned with its fields
unchanged. -/
theorem validateTicket_date_order (ow ns ds de : String)
    (how : ow ≠ "") (hns : ns ≠ "")
    (hds : isDateFormat ds = true) (hde : isDateFormat de = true) :
    (validateTicket ⟨some (Json.str "arweave"), some (Json.str ow), some (Json.str ns),
        some (Json.str ds), some (Json.str de)⟩ =
      Except.error "Invalid ticket: date_start must be before date_end" ↔
      jsStrLt de ds = true) ∧
    (jsStrLt de ds = false →
      validateTicket ⟨some (Json.str "arweave"), some (Json.str ow), some (Json.str ns),
        some (Json.str ds), some (Json.str de)⟩ =
      Except.ok ⟨"arweave", ow, ns, ds, de⟩) ∧
    (ds = de →
      validateTicket ⟨some (Json.str "arweave"), some (Json.str ow), some (Json.str ns),
        some (Json.str ds), some (Json.str de)⟩ =
      Except.ok ⟨"arweave", ow, ns, ds, de⟩) := by
  have hmain : ∀ b : Bool, jsStrLt de ds = b →
      validateTicket ⟨some (Json.str "arweave"), some (Json.str ow), some (Json.str ns),
        some (Json.str ds), some (Json.str de)⟩ =
      (if b then Except.error "Invalid ticket: date_start must be before date_end"
       else Except.ok ⟨"arweave", ow, ns, ds, de⟩) := by
    intro b hb
    have hds0 : ds ≠ "" := fun h => by rw [h] at hds; exact absurd hds (by decide)
    have hde0 : de ≠ "" := fun h => by rw [h] at hde; exact absurd hde (by decide)
    unfold validateTicket
    simp [strictEqStr, isStrVal, asStr, jsFalsy, how, hns, hds, hde, hb, hds0, hde0]
  refine ⟨⟨fun h => ?_, fun h => by simp [hmain true h]⟩,
    fun h => by simpa using hmain false h, fun h => ?_⟩
  · by_cases hb : jsStrLt de ds = true
    · exact hb
    · have := hmain false (by simpa using hb)
      rw [this] at h
      simp at h
  · have hfalse : jsStrLt de ds = false := by
      subst h
      unfold jsStrLt jsStrLe
      simp [charListLe_refl]
    simpa using hmain false hfalse

/-- Witness for C9: equal dates are accepted with fields unchanged, and
swapped dates are rejected with the date-order error. -/
theorem validateTicket_date_order_witness :
    validateTicket ⟨some (Json.str "arweave"), some (Json.str "O"), some (Json.str "ns"),
      some (Json.str "2026-01-01"), some (Json.str "2026-01-01")⟩ =
      Except.ok ⟨"arweave", "O", "ns", "2026-01-01", "2026-01-01"⟩ ∧
    validateTicket ⟨some (Json.str "arweave"), some (Json.str "O"), some (Json.str "ns"),
      some (Json.str "2026-01-02"), some (Json.str "2026-01-01")⟩ =
      Except.error "Invalid ticket: date_start must be before date_end" :=
  ⟨(validateTicket_date_order "O" "ns" "2026-01-01" "2026-01-01"
      (by decide) (by decide) (by decide) (by decide)).2.2 rfl,
   (validateTicket_date_order "O" "ns" "2026-01-02" "2026-01-01"
      (by decide) (by decide) (by decide) (by decide)).1.mpr (by decide)⟩

/-- C6: decoding a tag bag never raises (decodeNode is a total function),
and a missing Hash, Notarized-At, Notarized-Date-UTC or Session-ID tag
defaults to the empty string, a missing Sequence tag defaults to 0, and
absent block metadata yields null blockHeight and blockTimestamp. -/
theorem decodeNode_defaults (node : TxNode) :
    (tagsGet node.tags "Hash" = none → (decodeNode node).hash = "") ∧
    (tagsGet node.tags "Notarized-At" = none → (decodeNode node).notarizedAt = "") ∧
    (tagsGet node.tags "Notarized-Date-UTC" = none →
      (decodeNode node).notarizedDateUtc = "") ∧
    (tagsGet node.tags "Session-ID" = none → (decodeNode node).sessionId = "") ∧
    (tagsGet node.tags "Sequence" = none → (decodeNode node).sequence = 0) ∧
    (node.block = none → (decodeNode node).blockHeight = none ∧
      (decodeNode node).blockTimestamp = none) := by
  refine ⟨fun h => ?_, fun h => ?_, fun h => ?_, fun h => ?_, fun h => ?_,
    fun h => ⟨?_, ?_⟩⟩ <;>
    simp [decodeNode, h, jsOrStr, jsOrNullInt] <;> rfl

/-- Witness for C6: a node with no tags and no block decodes to all
defaults. -/
theorem decodeNode_defaults_witness :
    (decodeNode ⟨"t", none, []⟩).hash = "" ∧
    (decodeNode ⟨"t", none, []⟩).sequence = 0 ∧
    (decodeNode ⟨"t", none, []⟩).blockHeight = none ∧
    (decodeNode ⟨"t", none, []⟩).blockTimestamp = none :=
  ⟨(decodeNode_defaults ⟨"t", none, []⟩).1 rfl,
   (decodeNode_defaults ⟨"t", none, []⟩).2.2.2.2.1 rfl,
   ((decodeNode_defaults ⟨"t", none, []⟩).2.2.2.2.2 rfl).1,
   ((decodeNode_defaults ⟨"t", none, []⟩).2.2.2.2.2 rfl).2⟩

/-- C10: a record whose block metadata is present but reports height 0
decodes with blockHeight null (JS 0 || null), and the confirmations
back-fill therefore assigns it 0, as for an unmined record. -/
theorem decode_block_height_zero (node : TxNode) (b : BlockInfo) (currentHeight : Int)
    (hb : node.block = some b) (hh : b.height = 0) :
    (decodeNode node).blockHeight = none ∧
    (backfillOne currentHeight (decodeNode node)).confirmations = 0 := by
  constructor
  · simp [decodeNode, hb, hh, jsOrNullInt]
  · simp [backfillOne, decodeNode, hb, hh, jsOrNullInt, jsTruthyInt]

/-- Witness for C10 at a concrete node with block height 0. -/
theorem decode_block_height_zero_witness :
    (decodeNode ⟨"t", some ⟨500, 0⟩, []⟩).blockHeight = none ∧
    (backfillOne 1000 (decodeNode ⟨"t", some ⟨500, 0⟩, []⟩)).confirmations = 0 :=
  decode_block_height_zero ⟨"t", some ⟨500, 0⟩, []⟩ ⟨500, 0⟩ 1000 rfl rfl

lemma getLast?_mem_list {α : Type} (l : List α) (a : α) (h : l.getLast? = some a) :
    a ∈ l := by
  induction l with
  | nil => simp at h
  | cons x t ih =>
    cases t with
    | nil =>
      simp at h
      simp [h]
    | cons y s =>
      rw [List.getLast?_cons_cons] at h
      exact List.mem_cons_of_mem x (ih h)

lemma backfill_confirmations (currentHeight : Int) (txs : List ArweaveTxDetails) :
    ∀ tx ∈ backfill currentHeight txs,
      tx.confirmations =
        (if jsTruthyInt tx.blockHeight then currentHeight - tx.blockHeight.getD 0
         else 0) := by
  intro tx htx
  rcases List.mem_map.mp htx with ⟨tx0, _, rfl⟩
  rfl

/-- Concrete stub inputs shared by the reconciliation scenarios. -/
def cexTicket : ArweaveTicket := ⟨"arweave", "O", "ns", "2026-01-01", "2026-01-01"⟩

def cexEntries : List ZipEntry :=
  [⟨"logs/2026/01/01/x.json", false, "\x7b\"k\":\"v\"\x7d"⟩]

/-- The hash verify computes for the single archive entry above. -/
def cexHash : String := (hashContentM "\x7b\"k\":\"v\"\x7d").toOption.getD ""

/-- A service returning one record at block height 10 whose hash matches no
local file. -/
def negSvc : Option String → Except String GqlResp :=
  fun _ => .ok ⟨none, some ⟨some ⟨some ⟨false⟩,
    some [⟨"c", ⟨"t1", some ⟨111, 10⟩, [("Hash", "h1")]⟩⟩]⟩⟩⟩

/-- C3 counterexample: the chain height fetched after retrieval is 5 while
the record sits at block height 10; verify reports confirmations
5 - 10 = -5, not max(0, 5 - 10) = 0, so confirmations can be negative. -/
theorem verify_confirmations_cex :
    ∃ r, verifyModel cexTicket cexEntries negSvc (Except.ok (some 5)) 1 =
        Except.ok r ∧
      r.missing.map (fun tx => tx.confirmations) = [-5] ∧
      r.missing.map (fun tx => tx.blockHeight) = [some 10] ∧
      ((-5 : Int) < 0 ∧ ¬ max 0 ((5 : Int) - 10) = -5) :=
  ⟨_, rfl, rfl, rfl, by decide⟩

/-- C3 amended: after the single height fetch, every record reported in the
result carries confirmations = currentHeight - blockHeight when blockHeight
is present and nonzero (with no clamping, so the value may be negative when
the fetched height lags the record), and 0 when blockHeight is null. -/
theorem verify_confirmations (ticket : ArweaveTicket) (entries : List ZipEntry)
    (svc : Option String → Except String GqlResp) (heightResp : Except String (Option Int))
    (fuel : Nat) (r : VerificationResults) (localHashes : List String)
    (txs : List ArweaveTxDetails) (currentHeight : Int)
    (hv : verifyModel ticket entries svc heightResp fuel = Except.ok r)
    (hl : processZipAndHash entries ticket.date_start ticket.date_end = Except.ok localHashes)
    (hq : queryArweaveTransactionsM svc fuel = Except.ok txs)
    (hh : getCurrentBlockHeightM heightResp = Except.ok currentHeight) :
    (∀ tx ∈ r.verified,
      tx.confirmations =
        (if jsTruthyInt tx.blockHeight then currentHeight - tx.blockHeight.getD 0
         else 0)) ∧
    (∀ tx ∈ r.missing,
      tx.confirmations =
        (if jsTruthyInt tx.blockHeight then currentHeight - tx.blockHeight.getD 0
         else 0)) := by
  have hr := verify_ok_parts ticket entries svc heightResp fuel r localHashes txs
    currentHeight hv hl hq hh
  subst hr
  constructor
  · intro tx htx
    rcases List.mem_filterMap.mp htx with ⟨h, _, hm⟩
    rw [mapGet_build] at hm
    have hmem := List.mem_of_mem_filter (getLast?_mem_list _ _ hm)
    exact backfill_confirmations currentHeight txs tx hmem
  · intro tx htx
    exact backfill_confirmations currentHeight txs tx (List.mem_of_mem_filter htx)

/-- Witness for the amended C3 at the concrete negative-lag run. -/
theorem verify_confirmations_witness :
    ∃ r, verifyModel cexTicket cexEntries negSvc (Except.ok (some 5)) 1 =
        Except.ok r ∧
      (∀ tx ∈ r.missing,
        tx.confirmations =
          (if jsTruthyInt tx.blockHeight then 5 - tx.blockHeight.getD 0 else 0)) := by
  refine ⟨⟨[], [cexHash],
    [backfillOne 5 (decodeNode ⟨"t1", some ⟨111, 10⟩, [("Hash", "h1")]⟩)]⟩, by rfl, ?_⟩
  exact (verify_confirmations cexTicket cexEntries negSvc (Except.ok (some 5)) 1
    ⟨[], [cexHash],
      [backfillOne 5 (decodeNode ⟨"t1", some ⟨111, 10⟩, [("Hash", "h1")]⟩)]⟩
    [cexHash] [decodeNode ⟨"t1", some ⟨111, 10⟩, [("Hash", "h1")]⟩] 5
    (by rfl) (by rfl) (by rfl) (by rfl)).2

/-- An edge carrying the archive entry hash, parameterized by block
height; the service below returns two of them in HEIGHT_DESC order. -/
def dupEdge (h : Int) : TxEdge := ⟨"c", ⟨"t", some ⟨111, h⟩, [("Hash", cexHash)]⟩⟩

def dupSvc : Option String → Except String GqlResp :=
  fun _ => .ok ⟨none, some ⟨some ⟨some ⟨false⟩, some [dupEdge 10, dupEdge 5]⟩⟩⟩

/-- C5 counterexample: two retrieved records share the local hash, at block
heights 10 then 5 (HEIGHT_DESC); the record verify reports is the one from
block 5 — the last matching record, i.e. the lowest block — not the
first/highest as claimed, because each Map.set overwrites the previous
binding of the hash. -/
theorem verify_tiebreak_cex :
    ∃ r txs, queryArweaveTransactionsM dupSvc 1 = Except.ok txs ∧
      txs.map (fun tx => tx.hash) = [cexHash, cexHash] ∧
      txs.map (fun tx => tx.blockHeight) = [some 10, some 5] ∧
      verifyModel cexTicket cexEntries dupSvc (Except.ok (some 100)) 1 = Except.ok r ∧
      r.verified.map (fun tx => tx.blockHeight) = [some 5] ∧
      ¬ (some (5 : Int) = some (10 : Int)) :=
  ⟨⟨[backfillOne 100 (decodeNode (dupEdge 5).node)], [], []⟩,
   [decodeNode (dupEdge 10).node, decodeNode (dupEdge 5).node],
   rfl, rfl, rfl, rfl, rfl, by decide⟩

/-- C5 amended: the record reported as verified for a matching local hash
is chosen deterministically as the last matching record in retrieval order
(Map.set overwrites), which under HEIGHT_DESC retrieval is the record from
the lowest block among duplicates. -/
theorem verify_tiebreak_last (ticket : ArweaveTicket) (entries : List ZipEntry)
    (svc : Option String → Except String GqlResp) (heightResp : Except String (Option Int))
    (fuel : Nat) (r : VerificationResults) (localHashes : List String)
    (txs : List ArweaveTxDetails) (currentHeight : Int)
    (hv : verifyModel ticket entries svc heightResp fuel = Except.ok r)
    (hl : processZipAndHash entries ticket.date_start ticket.date_end = Except.ok localHashes)
    (hq : queryArweaveTransactionsM svc fuel = Except.ok txs)
    (hh : getCurrentBlockHeightM heightResp = Except.ok currentHeight) :
    r.verified = localHashes.filterMap
      (fun h => ((backfill currentHeight txs).filter (fun tx => tx.hash = h)).getLast?) := by
  have hr := verify_ok_parts ticket entries svc heightResp fuel r localHashes txs
    currentHeight hv hl hq hh
  subst hr
  show localHashes.filterMap (mapGet (buildArweaveMap (backfill currentHeight txs))) = _
  have hfun : mapGet (buildArweaveMap (backfill currentHeight txs)) =
      fun h => ((backfill currentHeight txs).filter (fun tx => tx.hash = h)).getLast? :=
    funext (fun h => mapGet_build _ h)
  rw [hfun]

/-- Witness for the amended C5 at the duplicate-hash run. -/
theorem verify_tiebreak_last_witness :
    ∃ r, verifyModel cexTicket cexEntries dupSvc (Except.ok (some 100)) 1 = Except.ok r ∧
      r.verified = [cexHash].filterMap (fun h =>
        ((backfill 100 [decodeNode (dupEdge 10).node, decodeNode (dupEdge 5).node]).filter
          (fun tx => tx.hash = h)).getLast?) := by
  refine ⟨⟨[backfillOne 100 (decodeNode (dupEdge 5).node)], [], []⟩, by rfl, ?_⟩
  exact verify_tiebreak_last cexTicket cexEntries dupSvc (Except.ok (some 100)) 1
    ⟨[backfillOne 100 (decodeNode (dupEdge 5).node)], [], []⟩ [cexHash]
    [decodeNode (dupEdge 10).node, decodeNode (dupEdge 5).node] 100
    (by rfl) (by rfl) (by rfl) (by rfl)

/-! ### Archive error discrimination -/

lemma splitOnChar_ne_nil (sep : Char) (l : List Char) : splitOnChar sep l ≠ [] := by
  cases l with
  | nil => simp [splitOnChar]
  | cons c rest =>
    unfold splitOnChar
    cases h : splitOnChar sep rest with
    | nil => simp
    | cons hh tt => by_cases hc : c = sep <;> simp [hc]

lemma splitOnChar_length_two (sep : Char) :
    ∀ l : List Char, sep ∈ l → 2 ≤ (splitOnChar sep l).length := by
  intro l
  induction l with
  | nil => simp
  | cons c rest ih =>
    intro hmem
    unfold splitOnChar
    cases h : splitOnChar sep rest with
    | nil => exact absurd h (splitOnChar_ne_nil sep rest)
    | cons hh tt =>
      by_cases hc : c = sep
      · simp [hc]
      · have hm : sep ∈ rest := by
          rcases List.mem_cons.mp hmem with h1 | h1
          · exact absurd h1.symm hc
          · exact h1
        have h2 := ih hm
        rw [h] at h2
        simp only [List.length_cons] at h2 ⊢
        simp [hc]
        omega

lemma splitOnChar_last_slash :
    ∀ l : List Char, l.getLast? = some '/' →
      (splitOnChar '/' l).getLast? = some [] := by
  intro l
  induction l with
  | nil => simp
  | cons c rest ih =>
    intro h
    cases hr : rest with
    | nil =>
      subst hr
      simp at h
      subst h
      rfl
    | cons d s =>
      subst hr
      rw [List.getLast?_cons_cons] at h
      have ihh := ih h
      have hmem : '/' ∈ (d :: s) := getLast?_mem_list _ _ h
      have hlen := splitOnChar_length_two '/' (d :: s) hmem
      unfold splitOnChar
      cases hsp : splitOnChar '/' (d :: s) with
      | nil => exact absurd hsp (splitOnChar_ne_nil '/' (d :: s))
      | cons hh tt =>
        rw [hsp] at ihh hlen
        cases tt with
        | nil => simp at hlen
        | cons u v =>
          rw [List.getLast?_cons_cons] at ihh
          by_cases hc : c = '/' <;>
            simp only [hc, if_true, if_false, reduceIte] <;>
            rw [List.getLast?_cons_cons] <;>
            first
              | exact (List.getLast?_cons_cons hh (u :: v) ▸ ihh)
              | exact ihh

/-- A path with a trailing slash — a ZIP directory entry — never matches
the date pattern: its final segment is empty. -/
lemma datePatternMatch_dir_slash (p : String) (h : p.data.getLast? = some '/') :
    datePatternMatch p = none := by
  have hlast := splitOnChar_last_slash p.data h
  unfold datePatternMatch
  have hhead : ((splitOnChar '/' p.data).reverse).head? = some [] := by
    rw [List.head?_reverse]
    exact hlast
  cases hrv : (splitOnChar '/' p.data).reverse with
  | nil => rfl
  | cons f rest =>
    have hf : f = [] := by
      rw [hrv] at hhead
      simp at hhead
      exact hhead
    subst hf
    cases rest with
    | nil => rfl
    | cons d rest2 =>
      cases rest2 with
      | nil => rfl
      | cons m rest3 =>
        cases rest3 with
        | nil => rfl
        | cons y rest4 => simp

lemma hashContentM_error_shape (c msg : String) (h : hashContentM c = .error msg) :
    msg = "SyntaxError: invalid JSON" ∨ msg = "Failed to canonicalize JSON" := by
  unfold hashContentM at h
  cases hp : parseJson c with
  | error e =>
    rw [hp] at h
    exact Or.inl (Except.error.inj h).symm
  | ok v =>
    rw [hp] at h
    by_cases hc : canonicalize v = ""
    · simp only [hc, if_true, reduceIte] at h
      exact Or.inr (Except.error.inj h).symm
    · simp [hc] at h

lemma mapM_hash_error (l : List ZipEntry) (msg : String)
    (h : l.mapM (fun e => hashContentM e.content) = .error msg) :
    msg = "SyntaxError: invalid JSON" ∨ msg = "Failed to canonicalize JSON" := by
  induction l with
  | nil => simp [List.mapM, List.mapM.loop, pure, Except.pure] at h
  | cons e t ih =>
    rw [List.mapM_cons] at h
    cases hf : hashContentM e.content with
    | error m2 =>
      rw [hf] at h
      simp only [bind, Except.bind] at h
      exact (Except.error.inj h) ▸ hashContentM_error_shape e.content m2 hf
    | ok x =>
      rw [hf] at h
      simp only [bind, Except.bind] at h
      cases ht : t.mapM (fun e => hashContentM e.content) with
      | error m3 =>
        rw [ht] at h
        simp only [bind, Except.bind] at h
        have hmsg := Except.error.inj h
        subst hmsg
        exact ih ht
      | ok xs =>
        rw [ht] at h
        simp [bind, Except.bind, pure, Except.pure] at h

lemma noRange_msg_ne (ds de other : String)
    (hother : other.data.take 20 ≠ ("No log files found within date range ").data.take 20) :
    ("No log files found within date range " ++ ds ++ " to " ++ de) ≠ other := by
  intro h
  have hd := congrArg (fun s : String => s.data.take 20) h
  simp only [String.data_append] at hd
  have h1 : ("No log files found within date range ").data.length = 37 := by decide
  have h2 : (" to ").data.length = 4 := by decide
  have hle1 : 20 ≤ (("No log files found within date range ".data ++ ds.data) ++
      " to ".data).length := by
    simp only [List.length_append, h1, h2]
    omega
  have hle2 : 20 ≤ ("No log files found within date range ".data ++ ds.data).length := by
    simp only [List.length_append, h1]
    omega
  have hle3 : (20 : Nat) ≤ ("No log files found within date range ".data).length := by
    rw [h1]
    omega
  rw [List.take_append_of_le_length hle1, List.take_append_of_le_length hle2,
    List.take_append_of_le_length hle3] at hd
  exact hother hd.symm

/-- C7: scanning fails with the NoMatchingEntries error exactly when zero
entries match the date pattern; it fails with the distinct NoEntriesInRange
error exactly when some entries match but none carries an embedded date
inside [dateStart, dateEnd]; and an entry whose path does not match the
pattern (such as foo/bar.json) is ignored: removing it never changes the
result.  Directory entries are assumed to carry the trailing slash ZIP
gives them. -/
theorem processZip_error_discrimination (entries : List ZipEntry) (ds de : String)
    (hdir : ∀ e ∈ entries, e.dir = true → e.path.data.getLast? = some '/') :
    (processZipAndHash entries ds de =
        Except.error "No log files found in ZIP. Expected structure: \x7bfolder\x7d/YYYY/MM/DD/\x7bhash\x7d.json" ↔
      entries.filter (fun e => (datePatternMatch e.path).isSome) = []) ∧
    (processZipAndHash entries ds de =
        Except.error ("No log files found within date range " ++ ds ++ " to " ++ de) ↔
      (entries.filter (fun e => (datePatternMatch e.path).isSome) ≠ [] ∧
       ∀ e ∈ entries, ∀ dp, datePatternMatch e.path = some dp →
         ¬(jsStrLe ds dp = true ∧ jsStrLe dp de = true))) ∧
    (∀ e : ZipEntry, datePatternMatch e.path = none →
      processZipAndHash (e :: entries) ds de = processZipAndHash entries ds de) := by
  have hdir' : ∀ e ∈ entries, (datePatternMatch e.path).isSome = true → e.dir = false := by
    intro e he hp
    by_contra hcon
    have hdt : e.dir = true := by
      revert hcon
      cases e.dir <;> simp
    have hnone := datePatternMatch_dir_slash e.path (hdir e he hdt)
    rw [hnone] at hp
    simp at hp
  have hFiff : (entries.filter (fun e => (datePatternMatch e.path).isSome)).filter
        (fun e => !e.dir &&
          (match datePatternMatch e.path with
           | some dp => jsStrLe ds dp && jsStrLe dp de
           | none => false)) = [] ↔
      (∀ e ∈ entries, ∀ dp, datePatternMatch e.path = some dp →
        ¬(jsStrLe ds dp = true ∧ jsStrLe dp de = true)) := by
    constructor
    · intro hF e he dp hdp hrange
      have heM : e ∈ entries.filter (fun e => (datePatternMatch e.path).isSome) :=
        List.mem_filter.mpr ⟨he, by simp [hdp]⟩
      have hne := List.filter_eq_nil_iff.mp hF e heM
      apply hne
      have hdirF := hdir' e he (by simp [hdp])
      simp [hdirF, hdp, hrange.1, hrange.2]
    · intro hall
      apply List.filter_eq_nil_iff.mpr
      intro e heM hpe
      have he := List.mem_of_mem_filter heM
      cases hdp : datePatternMatch e.path with
      | none => simp [hdp] at hpe
      | some dp =>
        simp [hdp] at hpe
        exact hall e he dp hdp ⟨hpe.2.1, hpe.2.2⟩
  refine ⟨?_, ?_, ?_⟩
  · constructor
    · intro hres
      by_contra hM
      simp only [processZipAndHash] at hres
      have hMe : (entries.filter (fun e => (datePatternMatch e.path).isSome)).isEmpty
          = false := by
        cases hb : (entries.filter (fun e => (datePatternMatch e.path).isSome)).isEmpty
        · rfl
        · exact absurd (List.isEmpty_iff.mp hb) hM
      rw [hMe] at hres
      simp only [Bool.false_eq_true, if_false, reduceIte] at hres
      cases hb2 : ((entries.filter (fun e => (datePatternMatch e.path).isSome)).filter
          (fun e => !e.dir &&
            (match datePatternMatch e.path with
             | some dp => jsStrLe ds dp && jsStrLe dp de
             | none => false))).isEmpty
      · rw [hb2] at hres
        simp only [Bool.false_eq_true, if_false, reduceIte] at hres
        rcases mapM_hash_error _ _ hres with h | h <;> exact absurd h (by decide)
      · rw [hb2] at hres
        simp only [if_true, reduceIte] at hres
        exact absurd (Except.error.inj hres)
          (noRange_msg_ne ds de _ (by decide))
    · intro hM
      simp only [processZipAndHash]
      have hMe : (entries.filter (fun e => (datePatternMatch e.path).isSome)).isEmpty
          = true := List.isEmpty_iff.mpr hM
      rw [hMe]
      rfl
  · constructor
    · intro hres
      simp only [processZipAndHash] at hres
      cases hb : (entries.filter (fun e => (datePatternMatch e.path).isSome)).isEmpty
      · rw [hb] at hres
        simp only [Bool.false_eq_true, if_false, reduceIte] at hres
        cases hb2 : ((entries.filter (fun e => (datePatternMatch e.path).isSome)).filter
            (fun e => !e.dir &&
              (match datePatternMatch e.path with
               | some dp => jsStrLe ds dp && jsStrLe dp de
               | none => false))).isEmpty
        · rw [hb2] at hres
          simp only [Bool.false_eq_true, if_false, reduceIte] at hres
          rcases mapM_hash_error _ _ hres with h | h
          · exact absurd h
              (noRange_msg_ne ds de "SyntaxError: invalid JSON" (by decide))
          · exact absurd h
              (noRange_msg_ne ds de "Failed to canonicalize JSON" (by decide))
        · refine ⟨?_, hFiff.mp (List.isEmpty_iff.mp hb2)⟩
          intro hM
          rw [List.isEmpty_iff.mpr hM] at hb
          simp at hb
      · rw [hb] at hres
        simp only [if_true, reduceIte] at hres
        exact absurd (Except.error.inj hres).symm
          (noRange_msg_ne ds de _ (by decide))
    · intro ⟨hM, hall⟩
      simp only [processZipAndHash]
      have hMe : (entries.filter (fun e => (datePatternMatch e.path).isSome)).isEmpty
          = false := by
        cases hb : (entries.filter (fun e => (datePatternMatch e.path).isSome)).isEmpty
        · rfl
        · exact absurd (List.isEmpty_iff.mp hb) hM
      rw [hMe]
      have hFe := List.isEmpty_iff.mpr (hFiff.mpr hall)
      simp only [Bool.false_eq_true, if_false, reduceIte]
      rw [hFe]
      rfl
  · intro e he
    simp only [processZipAndHash]
    rw [List.filter_cons]
    simp [he]

/-- Witness for C7: an archive whose only entry sits at foo/bar.json (valid
JSON, no date segments) is not notarization-shaped: NoMatchingEntries. -/
theorem processZip_error_discrimination_witness :
    processZipAndHash [⟨"foo/bar.json", false, "\x7b\x7d"⟩] "2026-01-01" "2026-12-31" =
      Except.error "No log files found in ZIP. Expected structure: \x7bfolder\x7d/YYYY/MM/DD/\x7bhash\x7d.json" ∧
    datePatternMatch "foo/bar.json" = none := by
  constructor
  · exact (processZip_error_discrimination [⟨"foo/bar.json", false, "\x7b\x7d"⟩]
      "2026-01-01" "2026-12-31"
      (by
        intro e he hd
        simp at he
        subst he
        simp at hd)).1.mpr (by rfl)
  · rfl

/-! ### Pagination (C4) -/

/-- One-step unfolding of the pagination loop. -/
lemma queryLoop_succ (svc : Option String → Except String GqlResp) (f : Nat)
    (cursor : Option String) (acc : List ArweaveTxDetails) :
    queryLoop svc (f + 1) cursor acc =
      (match svc cursor with
       | .error msg => .error ("Arweave query failed: " ++ msg)
       | .ok resp =>
         match resp.errors with
         | some errs => .error ("Arweave GraphQL error: " ++ errs.headD "undefined")
         | none =>
           let transactions := resp.data.bind (fun d => d.transactions)
           let edges := (transactions.bind (fun t => t.edges)).getD []
           let hasNext := ((transactions.bind (fun t => t.pageInfo)).map
             (fun p => p.hasNextPage)).getD false
           let acc2 := acc ++ edges.map (fun e => decodeNode e.node)
           if !hasNext || edges.isEmpty then .ok acc2
           else queryLoop svc f
             (some (((edges.map (fun e => e.cursor)).getLast?).getD "")) acc2) := rfl

lemma getLast?_replicate {α : Type} (k : Nat) (a : α) (hk : k ≠ 0) :
    (List.replicate k a).getLast? = some a := by
  induction k with
  | zero => omega
  | succ m ih =>
    cases m with
    | zero => rfl
    | succ m2 =>
      rw [List.replicate_succ, List.replicate_succ, List.getLast?_cons_cons,
        ← List.replicate_succ]
      exact ih (by omega)

/-- One edge of the stub service's page i: the cursor encodes i in
unary. -/
def stubEdge (i : Nat) : TxEdge :=
  ⟨String.mk (List.replicate i 'x'), ⟨"t", none, [("Hash", "h")]⟩⟩

/-- A bounded stub ledger service: page i of n carries 100 edges whose
cursors encode i in unary, and hasNextPage exactly while i < n. -/
def stubPage (n i : Nat) : GqlResp :=
  ⟨none, some ⟨some ⟨some ⟨decide (i < n)⟩, some (List.replicate 100 (stubEdge i))⟩⟩⟩

/-- The request cursor selects the page: no cursor is page 1, a cursor of
length j asks for page j + 1 — so following the last edge's cursor of page
i leads to page i + 1. -/
def stubSvc (n : Nat) : Option String → Except String GqlResp :=
  fun cursor =>
    .ok (stubPage n (match cursor with | none => 1 | some s => s.length + 1))

def stubCursor (i : Nat) : Option String :=
  if i = 1 then none else some (String.mk (List.replicate (i - 1) 'x'))

lemma stubSvc_cursor (n i : Nat) (hi : 1 ≤ i) :
    stubSvc n (stubCursor i) = .ok (stubPage n i) := by
  unfold stubSvc stubCursor
  by_cases h1 : i = 1
  · simp [h1]
  · simp only [h1, if_false, reduceIte]
    have hlen : (String.mk (List.replicate (i - 1) 'x')).length = i - 1 := by
      simp [String.length]
    rw [hlen]
    have hadd : i - 1 + 1 = i := by omega
    rw [hadd]

lemma stub_loop (n : Nat) :
    ∀ (fuel i : Nat) (acc : List ArweaveTxDetails), 1 ≤ i → i ≤ n → n - i < fuel →
      ∃ l, queryLoop (stubSvc n) fuel (stubCursor i) acc = Except.ok l ∧
        l.length = acc.length + 100 * (n + 1 - i) := by
  intro fuel
  induction fuel with
  | zero =>
    intro i acc _ _ hlt
    omega
  | succ f ih =>
    intro i acc hi hin _
    rw [queryLoop_succ, stubSvc_cursor n i hi]
    simp only [stubPage, Option.some_bind, Option.getD_some, Option.map_some']
    by_cases hlast : i < n
    · rw [decide_eq_true hlast]
      have hempty : (List.replicate 100 (stubEdge i)).isEmpty = false := by
        rw [List.replicate_succ]
        rfl
      rw [hempty]
      rw [if_neg (by simp)]
      have hcursor : ((((List.replicate 100 (stubEdge i)).map
          (fun e => e.cursor)).getLast?).getD "") = String.mk (List.replicate i 'x') := by
        rw [List.map_replicate, getLast?_replicate 100 _ (by omega)]
        rfl
      have hnext : some (String.mk (List.replicate i 'x')) = stubCursor (i + 1) := by
        unfold stubCursor
        rw [if_neg (by omega)]
        simp
      rw [hcursor, hnext]
      rcases ih (i + 1)
          (acc ++ (List.replicate 100 (stubEdge i)).map (fun e => decodeNode e.node))
          (by omega) (by omega) (by omega) with ⟨l, hl, hlen⟩
      refine ⟨l, hl, ?_⟩
      rw [hlen]
      simp only [List.length_append, List.length_map, List.length_replicate]
      omega
    · rw [decide_eq_false hlast]
      rw [if_pos (by simp)]
      refine ⟨_, rfl, ?_⟩
      simp only [List.length_append, List.length_map, List.length_replicate]
      omega

/-- C4: the client pages in units of 100 using the previous page's last edge
cursor and accumulates every record: against the bounded stub with n pages
of 100 records it returns exactly 100 * n records (first conjunct); an
empty page stops the loop successfully even when hasNextPage is still true
— exhaustion, not an error (second conjunct); and a non-empty page with
hasNextPage true continues from the last edge's cursor with the page's
decoded records appended (third conjunct). -/
theorem query_pagination :
    (∀ n fuel : Nat, 1 ≤ n → n ≤ fuel →
      ∃ l, queryArweaveTransactionsM (stubSvc n) fuel = Except.ok l ∧
        l.length = 100 * n) ∧
    (∀ (svc : Option String → Except String GqlResp) (fuel : Nat) (resp : GqlResp),
      svc none = Except.ok resp → resp.errors = none →
      (resp.data.bind (fun d => d.transactions)).bind (fun t => t.edges) = some [] →
      1 ≤ fuel →
      queryArweaveTransactionsM svc fuel = Except.ok []) ∧
    (∀ (svc : Option String → Except String GqlResp) (fuel : Nat)
        (cursor : Option String) (acc : List ArweaveTxDetails) (resp : GqlResp)
        (edges : List TxEdge),
      svc cursor = Except.ok resp → resp.errors = none →
      (resp.data.bind (fun d => d.transactions)).bind (fun t => t.edges) = some edges →
      (resp.data.bind (fun d => d.transactions)).bind (fun t => t.pageInfo) =
        some ⟨true⟩ →
      edges ≠ [] →
      queryLoop svc (fuel + 1) cursor acc =
        queryLoop svc fuel (some (((edges.map (fun e => e.cursor)).getLast?).getD ""))
          (acc ++ edges.map (fun e => decodeNode e.node))) := by
  refine ⟨?_, ?_, ?_⟩
  · intro n fuel hn hfuel
    have h1 : stubCursor 1 = none := rfl
    rcases stub_loop n fuel 1 [] (le_refl 1) hn (by omega) with ⟨l, hl, hlen⟩
    rw [h1] at hl
    refine ⟨l, hl, ?_⟩
    rw [hlen]
    simp
  · intro svc fuel resp hsvc herr hedges hfuel
    match fuel, hfuel with
    | f + 1, _ =>
      unfold queryArweaveTransactionsM
      rw [queryLoop_succ, hsvc]
      dsimp only
      rw [herr]
      dsimp only
      rw [hedges]
      simp
  · intro svc fuel cursor acc resp edges hsvc herr hedges hpi hne
    have hie : edges.isEmpty = false := by
      cases edges with
      | nil => exact absurd rfl hne
      | cons a t => rfl
    rw [queryLoop_succ, hsvc]
    dsimp only
    rw [herr]
    dsimp only
    rw [hedges, hpi]
    simp only [Option.getD_some, Option.map_some', Bool.not_true, Bool.false_or, hie]
    rw [if_neg (by simp)]

/-- Witness for C4: three pages of 100 give exactly 300 records, and a
service whose first page is empty with hasNextPage still true returns ok []
rather than failing. -/
theorem query_pagination_witness :
    (∃ l, queryArweaveTransactionsM (stubSvc 3) 3 = Except.ok l ∧ l.length = 300) ∧
    queryArweaveTransactionsM
      (fun _ => Except.ok ⟨none, some ⟨some ⟨some ⟨true⟩, some []⟩⟩⟩) 1 =
      Except.ok [] := by
  constructor
  · rcases query_pagination.1 3 3 (by decide) (by decide) with ⟨l, hl, hlen⟩
    exact ⟨l, hl, by rw [hlen]⟩
  · exact query_pagination.2.1 (fun _ => Except.ok ⟨none, some ⟨some ⟨some ⟨true⟩, some []⟩⟩⟩)
      1 ⟨none, some ⟨some ⟨some ⟨true⟩, some []⟩⟩⟩ rfl rfl rfl (by decide)

/-! ### Calendar arithmetic (C8) -/

lemma dBM_add_dim (y m : Nat) (h1 : 1 ≤ m) (h2 : m ≤ 12) :
    daysBeforeMonth (isLeap y) m + daysInMonth y m =
      daysBeforeMonth (isLeap y) (m + 1) := by
  interval_cases m <;> cases hb : isLeap y <;> simp [daysBeforeMonth, daysInMonth, hb]

lemma dim_pos (y m : Nat) (h1 : 1 ≤ m) (h2 : m ≤ 12) : 1 ≤ daysInMonth y m := by
  interval_cases m <;> cases hb : isLeap y <;> simp [daysInMonth, hb]

lemma isLeap_eq_true_iff (y : Nat) :
    isLeap y = true ↔ (y % 4 = 0 ∧ (¬ y % 100 = 0 ∨ y % 400 = 0)) := by
  unfold isLeap
  simp [Bool.and_eq_true, Bool.or_eq_true, decide_eq_true_eq, bne_iff_ne]

lemma D_succ (y : Nat) :
    daysBeforeYear (y + 1) = daysBeforeYear y + 365 + (if isLeap y then 1 else 0) := by
  by_cases hL : isLeap y = true
  · rw [if_pos hL]
    rw [isLeap_eq_true_iff] at hL
    obtain ⟨h4, hrest⟩ := hL
    unfold daysBeforeYear leapsBefore
    rcases hrest with h100 | h400
    · omega
    · omega
  · rw [if_neg hL]
    rw [isLeap_eq_true_iff] at hL
    unfold daysBeforeYear leapsBefore
    by_cases h4 : y % 4 = 0
    · by_cases h400 : y % 400 = 0
      · exact absurd ⟨h4, Or.inr h400⟩ hL
      · by_cases h100 : y % 100 = 0
        · omega
        · exact absurd ⟨h4, Or.inl h100⟩ hL
    · omega

lemma D_mono (a c : Nat) (h : a ≤ c) : daysBeforeYear a ≤ daysBeforeYear c := by
  induction c with
  | zero =>
    have : a = 0 := by omega
    simp [this]
  | succ k ih =>
    rcases Nat.lt_or_ge a (k + 1) with hlt | hge
    · have hk := ih (by omega)
      have := D_succ k
      omega
    · have : a = k + 1 := by omega
      simp [this]

lemma dBM_mono (y : Nat) (a c : Nat) (h1 : 1 ≤ a) (hac : a ≤ c) (hc : c ≤ 13) :
    daysBeforeMonth (isLeap y) a ≤ daysBeforeMonth (isLeap y) c := by
  induction c with
  | zero => omega
  | succ k ih =>
    rcases Nat.lt_or_ge a (k + 1) with hlt | hge
    · have hk := ih (by omega) (by omega)
      have hstep := dBM_add_dim y k (by omega) (by omega)
      omega
    · have : a = k + 1 := by omega
      simp [this]

lemma rataDie_lb (v : YMD) (hv : validYMD v) : daysBeforeYear v.y < rataDie v := by
  rcases hv with ⟨h1, h2, h3, h4⟩
  unfold rataDie
  omega

lemma rataDie_ub (v : YMD) (hv : validYMD v) : rataDie v ≤ daysBeforeYear (v.y + 1) := by
  rcases hv with ⟨h1, h2, h3, h4⟩
  unfold rataDie
  have hstep := dBM_add_dim v.y v.m h1 h2
  have hmono := dBM_mono v.y (v.m + 1) 13 (by omega) (by omega) (by omega)
  have h13 : daysBeforeMonth (isLeap v.y) 13 = 365 + (if isLeap v.y then 1 else 0) := by
    cases hb : isLeap v.y <;> simp [daysBeforeMonth, hb]
  have hD := D_succ v.y
  omega

lemma nextDay_valid (v : YMD) (hv : validYMD v) : validYMD (nextDay v) := by
  obtain ⟨y, m, d⟩ := v
  obtain ⟨h1, h2, h3, h4⟩ := hv
  have h1m : 1 ≤ m := h1
  have h2m : m ≤ 12 := h2
  have h3d : 1 ≤ d := h3
  have h4d : d ≤ daysInMonth y m := h4
  show validYMD (if d < daysInMonth y m then (⟨y, m, d + 1⟩ : YMD)
    else if m < 12 then ⟨y, m + 1, 1⟩ else ⟨y + 1, 1, 1⟩)
  by_cases hd : d < daysInMonth y m
  · rw [if_pos hd]
    refine ⟨h1m, h2m, ?_, ?_⟩
    · show 1 ≤ d + 1
      omega
    · show d + 1 ≤ daysInMonth y m
      omega
  · rw [if_neg hd]
    by_cases hm : m < 12
    · rw [if_pos hm]
      refine ⟨?_, ?_, ?_, ?_⟩
      · show 1 ≤ m + 1
        omega
      · show m + 1 ≤ 12
        omega
      · show 1 ≤ (1 : Nat)
        omega
      · show 1 ≤ daysInMonth y (m + 1)
        exact dim_pos y (m + 1) (by omega) (by omega)
    · rw [if_neg hm]
      refine ⟨?_, ?_, ?_, ?_⟩
      · show 1 ≤ (1 : Nat)
        omega
      · show (1 : Nat) ≤ 12
        omega
      · show 1 ≤ (1 : Nat)
        omega
      · show 1 ≤ daysInMonth (y + 1) 1
        simp [daysInMonth]

lemma rataDie_nextDay (v : YMD) (hv : validYMD v) :
    rataDie (nextDay v) = rataDie v + 1 := by
  obtain ⟨y, m, d⟩ := v
  obtain ⟨h1, h2, h3, h4⟩ := hv
  have h1m : 1 ≤ m := h1
  have h2m : m ≤ 12 := h2
  have h3d : 1 ≤ d := h3
  have h4d : d ≤ daysInMonth y m := h4
  show rataDie (if d < daysInMonth y m then (⟨y, m, d + 1⟩ : YMD)
    else if m < 12 then ⟨y, m + 1, 1⟩ else ⟨y + 1, 1, 1⟩) =
    rataDie ⟨y, m, d⟩ + 1
  by_cases hd : d < daysInMonth y m
  · rw [if_pos hd]
    show daysBeforeYear y + daysBeforeMonth (isLeap y) m + (d + 1) =
      daysBeforeYear y + daysBeforeMonth (isLeap y) m + d + 1
    omega
  · have hdeq : d = daysInMonth y m := by omega
    rw [if_neg hd]
    by_cases hm : m < 12
    · rw [if_pos hm]
      show daysBeforeYear y + daysBeforeMonth (isLeap y) (m + 1) + 1 =
        daysBeforeYear y + daysBeforeMonth (isLeap y) m + d + 1
      have hstep := dBM_add_dim y m h1m h2m
      omega
    · have hmeq : m = 12 := by omega
      subst hmeq
      rw [if_neg hm]
      show daysBeforeYear (y + 1) + daysBeforeMonth (isLeap (y + 1)) 1 + 1 =
        daysBeforeYear y + daysBeforeMonth (isLeap y) 12 + d + 1
      have hD := D_succ y
      have h12 : daysBeforeMonth (isLeap y) 12 = 334 + (if isLeap y then 1 else 0) := by
        cases hb : isLeap y <;> decide
      have h31 : daysInMonth y 12 = 31 := rfl
      have hB1 : daysBeforeMonth (isLeap (y + 1)) 1 = 0 := by
        cases hb : isLeap (y + 1) <;> decide
      rw [h31] at hdeq
      omega

lemma month_day_inj (y m m' d d' : Nat) (h1 : 1 ≤ m) (h2 : m ≤ 12)
    (h3 : 1 ≤ d) (h4 : d ≤ daysInMonth y m) (h1' : 1 ≤ m') (h2' : m' ≤ 12)
    (h3' : 1 ≤ d') (h4' : d' ≤ daysInMonth y m')
    (heq : daysBeforeMonth (isLeap y) m + d = daysBeforeMonth (isLeap y) m' + d') :
    m = m' ∧ d = d' := by
  have haux : ∀ a b da db, 1 ≤ a → a ≤ 12 → 1 ≤ b → b ≤ 12 → 1 ≤ da →
      da ≤ daysInMonth y a → 1 ≤ db → db ≤ daysInMonth y b → a < b →
      daysBeforeMonth (isLeap y) a + da < daysBeforeMonth (isLeap y) b + db := by
    intro a b da db ha1 ha2 hb1 hb2 hda1 hda2 hdb1 hdb2 hab
    have hstep := dBM_add_dim y a ha1 ha2
    have hmono := dBM_mono y (a + 1) b (by omega) (by omega) (by omega)
    omega
  rcases Nat.lt_trichotomy m m' with hlt | heqm | hgt
  · have := haux m m' d d' h1 h2 h1' h2' h3 h4 h3' h4' hlt
    omega
  · subst heqm
    omega
  · have := haux m' m d' d h1' h2' h1 h2 h3' h4' h3 h4 hgt
    omega

/-- rataDie is injective on valid dates. -/
lemma rataDie_inj (v w : YMD) (hv : validYMD v) (hw : validYMD w)
    (h : rataDie v = rataDie w) : v = w := by
  have hy : v.y = w.y := by
    by_contra hne
    rcases Nat.lt_or_ge v.y w.y with hlt | hge
    · have hub := rataDie_ub v hv
      have hlb := rataDie_lb w hw
      have hmono := D_mono (v.y + 1) w.y (by omega)
      omega
    · have hlt : w.y < v.y := by omega
      have hub := rataDie_ub w hw
      have hlb := rataDie_lb v hv
      have hmono := D_mono (w.y + 1) v.y (by omega)
      omega
  obtain ⟨hv1, hv2, hv3, hv4⟩ := hv
  obtain ⟨hw1, hw2, hw3, hw4⟩ := hw
  unfold rataDie at h
  rw [hy] at h
  have hmd := month_day_inj w.y v.m w.m v.d w.d hv1 hv2 hv3 (hy ▸ hv4) hw1 hw2 hw3 hw4
    (by omega)
  obtain ⟨hm, hd⟩ := hmd
  cases v
  cases w
  simp_all

/-- The dates visited by the source loop, before ISO formatting. -/
def ymdList : Nat → YMD → YMD → List YMD
  | 0, _, _ => []
  | fuel + 1, cur, en =>
    if ymdLe cur en then cur :: ymdList fuel (nextDay cur) en else []

lemma dateLoop_eq_map (fuel : Nat) : ∀ cur en,
    dateLoop fuel cur en = (ymdList fuel cur en).map formatYMD := by
  induction fuel with
  | zero => intro cur en; rfl
  | succ k ih =>
    intro cur en
    show (if ymdLe cur en then formatYMD cur :: dateLoop k (nextDay cur) en else []) =
      (if ymdLe cur en then cur :: ymdList k (nextDay cur) en else []).map formatYMD
    by_cases h : ymdLe cur en = true
    · rw [if_pos h, if_pos h, List.map_cons, ih]
    · rw [if_neg h, if_neg h]
      rfl

lemma parse_valid (s : String) (v : YMD) (h : jsParseIsoDate s = some v) :
    validYMD v := by
  unfold jsParseIsoDate at h
  split at h
  · split at h
    · simp only [] at h
      split at h
      · injection h with h2
        subst h2
        assumption
      · simp at h
    · simp at h
  · simp at h

lemma ymdList_spec : ∀ (k : Nat) (cur en : YMD), validYMD cur → validYMD en →
    rataDie cur ≤ rataDie en → k = rataDie en + 1 - rataDie cur →
    (ymdList k cur en).head? = some cur ∧
    (ymdList k cur en).getLast? = some en ∧
    (ymdList k cur en).Chain' (fun a b => b = nextDay a) ∧
    (ymdList k cur en).length = k := by
  intro k
  induction k with
  | zero =>
    intro cur en _ _ hle hk
    exact absurd hk (by omega)
  | succ n ih =>
    intro cur en hvc hve hle hk
    have hcur_le : ymdLe cur en = true := decide_eq_true hle
    have hexp : ymdList (n + 1) cur en = cur :: ymdList n (nextDay cur) en := by
      show (if ymdLe cur en then cur :: ymdList n (nextDay cur) en else []) = _
      rw [if_pos hcur_le]
    rcases Nat.eq_or_lt_of_le hle with heq | hlt
    · have hce : cur = en := rataDie_inj cur en hvc hve heq
      have hn : n = 0 := by omega
      subst hn
      subst hce
      have h0 : ymdList 0 (nextDay cur) cur = [] := rfl
      rw [hexp, h0]
      exact ⟨rfl, rfl, by simp, rfl⟩
    · have hvn := nextDay_valid cur hvc
      have hrn := rataDie_nextDay cur hvc
      have hle' : rataDie (nextDay cur) ≤ rataDie en := by omega
      have hk' : n = rataDie en + 1 - rataDie (nextDay cur) := by omega
      obtain ⟨ih1, ih2, ih3, ih4⟩ := ih (nextDay cur) en hvn hve hle' hk'
      have hne : ymdList n (nextDay cur) en ≠ [] := by
        intro hnil
        rw [hnil] at ih4
        simp at ih4
        omega
      rw [hexp]
      refine ⟨rfl, ?_, ?_, ?_⟩
      · cases hl : ymdList n (nextDay cur) en with
        | nil => exact absurd hl hne
        | cons b t =>
          rw [List.getLast?_cons_cons]
          rw [hl] at ih2
          exact ih2
      · rw [List.chain'_cons']
        refine ⟨?_, ih3⟩
        intro b hb
        rw [ih1] at hb
        rw [Option.mem_def] at hb
        injection hb with hb
        exact hb.symm
      · show (cur :: ymdList n (nextDay cur) en).length = n + 1
        rw [List.length_cons, ih4]

/-- C8: generateDateRange expands the date range inclusively at both ends:
for parseable ISO dates with start ≤ end it returns exactly the consecutive
calendar dates from start to end, in ascending order (each successive date
is the next calendar day, and the count is the day span plus one); the range
2026-01-01..2026-01-03 yields exactly those three dates, and start = end
yields the one-element list. -/
theorem generateDateRange_inclusive :
    (∀ s e st en, jsParseIsoDate s = some st → jsParseIsoDate e = some en →
        rataDie st ≤ rataDie en →
        ∃ ds : List YMD,
          generateDateRange s e = ds.map formatYMD ∧
          ds.head? = some st ∧
          ds.getLast? = some en ∧
          ds.Chain' (fun a b => b = nextDay a) ∧
          ds.length = rataDie en + 1 - rataDie st) ∧
    generateDateRange "2026-01-01" "2026-01-03" =
      ["2026-01-01", "2026-01-02", "2026-01-03"] ∧
    (∀ s st, jsParseIsoDate s = some st →
        generateDateRange s s = [formatYMD st]) := by
  refine ⟨?_, ?_, ?_⟩
  · intro s e st en hs he hle
    obtain ⟨a, b, c, d2⟩ := ymdList_spec (rataDie en + 1 - rataDie st) st en
      (parse_valid s st hs) (parse_valid e en he) hle rfl
    refine ⟨ymdList (rataDie en + 1 - rataDie st) st en, ?_, a, b, c, d2⟩
    unfold generateDateRange
    rw [hs, he]
    exact dateLoop_eq_map _ st en
  · rfl
  · intro s st hs
    unfold generateDateRange
    rw [hs]
    show dateLoop (rataDie st + 1 - rataDie st) st st = [formatYMD st]
    have h1 : rataDie st + 1 - rataDie st = 1 := by omega
    rw [h1]
    show dateLoop 1 st st = [formatYMD st]
    unfold dateLoop
    have hLe : ymdLe st st = true := decide_eq_true (Nat.le_refl _)
    rw [if_pos hLe]
    rfl

/-- Witness for C8: the range 2026-02-27..2026-03-02 (spanning a leap-year
February boundary) is fully characterised by the theorem, and a
single-day range gives a singleton. -/
theorem generateDateRange_inclusive_witness :
    (∃ ds : List YMD,
      generateDateRange "2026-02-27" "2026-03-02" = ds.map formatYMD ∧
      ds.head? = some ⟨2026, 2, 27⟩ ∧
      ds.getLast? = some ⟨2026, 3, 2⟩ ∧
      ds.Chain' (fun a b => b = nextDay a) ∧
      ds.length = 4) ∧
    generateDateRange "2026-05-05" "2026-05-05" = ["2026-05-05"] := by
  constructor
  · obtain ⟨ds, h1, h2, h3, h4, h5⟩ := generateDateRange_inclusive.1
      "2026-02-27" "2026-03-02" ⟨2026, 2, 27⟩ ⟨2026, 3, 2⟩ rfl rfl (by decide)
    exact ⟨ds, h1, h2, h3, h4, by rw [h5]; decide⟩
  · exact generateDateRange_inclusive.2.2 "2026-05-05" ⟨2026, 5, 5⟩ rfl
